import Mathlib

/-!
# Verification of the `MobileReplayer` segment scheduler

A shallow embedding of the mobile replay segment scheduler: the binary
segment lookup `findSegmentIndex`, the playback state of `MobileReplayer`
(videos, virtual timer, current segment index), and its operations
(`play`, `pause`, `setConfig`, `handleSegmentEnd`, `getCurrentTime`,
`loadSegment`, `loadSegmentAtTime`).

Timestamps and durations are integral milliseconds, modelled as `Int`.
Media seek positions are seconds (`video.currentTime = timeMs / 1000`),
modelled as `Rat`.  Operations that can throw in the source (undefined
element access) return `Option`; the `await` of a virtual-timer
notification inside `loadSegment` is modelled by an explicit suspension
outcome together with a stored continuation.
-/

set_option autoImplicit false

namespace MobileReplay

/-- One contiguous recorded media chunk (`MobileAttachment` in the source):
absolute start timestamp, duration (both ms) and a media URI. -/
structure MobileAttachment where
  duration : Int
  timestamp : Int
  uri : String
deriving Repr, DecidableEq

/-- Default attachment used with `List.getD` in statements. -/
def dfltAttachment : MobileAttachment := ⟨0, 0, ""⟩

/--
`findSegmentIndex(trackList, segments, targetTimestamp, start, end)`:
recursive binary search over the sorted `(timestamp, index)` track list.
Returns `some i` for the result the source returns; `none` models the
TypeError the source would raise on an undefined element access
(destructuring `trackList[mid]` or reading `segments[index].duration`).
`Math.floor((start + end) / 2)` is floor division, i.e. `Int.fdiv`.
-/
def findSegmentIndex (trackList : List (Int × Nat)) (segments : List MobileAttachment)
    (targetTimestamp : Int) (start end_ : Int) : Option Int :=
  if start > end_ then
    -- not an exact segment: return the prior bound
    some end_
  else
    let mid := (start + end_).fdiv 2
    if mid < 0 then none
    else
      match trackList.get? mid.toNat with
      | none => none
      | some (ts, index) =>
        match segments.get? index with
        | none => none
        | some segment =>
          if targetTimestamp ≥ ts ∧ targetTimestamp ≤ ts + segment.duration then
            -- segment match found
            some (index : Int)
          else if targetTimestamp > ts then
            -- search higher half
            findSegmentIndex trackList segments targetTimestamp (mid + 1) end_
          else
            -- search lower half
            findSegmentIndex trackList segments targetTimestamp start (mid - 1)
termination_by (end_ + 1 - start).toNat
decreasing_by
  · rw [Int.fdiv_eq_ediv _ (by omega)]; omega
  · rw [Int.fdiv_eq_ediv _ (by omega)]; omega

/-- The track list built in the constructor:
`attachments.map(({timestamp}, i) => [timestamp, i])`. -/
def trackListOf (attachments : List MobileAttachment) : List (Int × Nat) :=
  attachments.enum.map fun p => (p.2.timestamp, p.1)

/-- Continuation resumed when an awaited `loadSegment` promise settles.
`done` is a fire-and-forget call (constructor, `pause`); `thenPlay` is
`playSegmentAtIndex` / `playSegmentAtTime` playing the returned index;
`lsatRest` is the remainder of `loadSegmentAtTime` after its inner
previous-segment load. -/
inductive Kont where
  | done
  | thenPlay
  | lsatRest (videoOffsetMs : Int) (previousIndex : Nat) (withPlay : Bool)
deriving Repr, DecidableEq

/-- A pending one-shot wake-up registered with `addNotificationAtTime`:
the virtual target time plus the suspended remainder of `loadSegment`
(its `index`, `segmentOffsetMs` and the caller's continuation). -/
structure PNotification where
  target : Int
  index : Nat
  segmentOffsetMs : Int
  kont : Kont
deriving Repr, DecidableEq

/-- Modelled from the spec: the Virtual Timer (`sentry/utils/replays/timer`,
not under `src/`): current elapsed virtual time in ms, a running flag, and
the set of pending one-shot wake-up notifications. -/
structure Timer where
  time : Int
  running : Bool
  notifications : List PNotification
deriving Repr, DecidableEq

/-- Modelled from the spec: `start(atOffsetMs)` sets current time to
`atOffsetMs` and marks the timer running. -/
def Timer.start (t : Timer) (atOffsetMs : Int) : Timer :=
  { t with time := atOffsetMs, running := true }

/-- Modelled from the spec: `stop(atOffsetMs)` freezes at the given offset
(at the current time when called with no argument) and marks the timer
stopped; pending wake-ups remain registered but do not fire while stopped. -/
def Timer.stop (t : Timer) (atOffsetMs : Option Int) : Timer :=
  { t with time := atOffsetMs.getD t.time, running := false }

/-- Modelled from the spec: `getTime()` returns the current elapsed virtual
time (the frozen value while stopped). -/
def Timer.getTime (t : Timer) : Int := t.time

/-- Modelled from the spec: `addNotificationAtTime(targetMs, callback)`
registers a one-shot callback; it fires (at most once) the first time the
running timer reaches or passes the target, and is then discarded. -/
def Timer.addNotificationAtTime (t : Timer) (nt : PNotification) : Timer :=
  { t with notifications := t.notifications ++ [nt] }

/-- An `HTMLVideoElement` as far as the player mutates it: source URI,
CSS display (`"none"` = hidden), seek position in seconds
(`currentTime = timeMs / 1000`), decode rate, and paused flag. -/
structure VideoElem where
  src : String
  display : String
  currentTime : Rat
  playbackRate : Rat
  paused : Bool
deriving Repr, DecidableEq

/-- Default video element used with `List.getD` in statements. -/
def dfltVideo : VideoElem := ⟨"", "none", 0, 1, true⟩

/-- `createVideo`: each handle is created with `display = "none"` (hidden),
`playbackRate = this._playbackSpeed`, and the attachment's URI; a fresh
element starts paused at time 0. -/
def createVideo (segmentData : MobileAttachment) (playbackSpeed : Rat) : VideoElem :=
  { src := segmentData.uri
    display := "none"
    currentTime := 0
    playbackRate := playbackSpeed
    paused := true }

/-- The mutable state of a `MobileReplayer` instance. -/
structure PState where
  attachments : List MobileAttachment
  currentIndex : Option Nat
  playbackSpeed : Rat
  startTimestamp : Int
  timer : Timer
  trackList : List (Int × Nat)
  videos : List VideoElem
  finishedCount : Nat
deriving Repr, DecidableEq

/-- `this._currentIndex` as the `number | undefined` the source passes to
`getVideo`/`hideVideo`. -/
def currentIndexInt (st : PState) : Option Int :=
  match st.currentIndex with
  | none => none
  | some n => some (n : Int)

/-- `getSegment(index)`: `null` for `undefined`, else `this._attachments[index]`
(`none` also models the `undefined` a negative or out-of-range index yields). -/
def PState.getSegment (st : PState) (index : Option Int) : Option MobileAttachment :=
  match index with
  | none => none
  | some i => if 0 ≤ i then st.attachments.get? i.toNat else none

/-- `getVideo(index)`: `null` for `undefined`, else `this._videos[index]`. -/
def PState.getVideo (st : PState) (index : Option Int) : Option VideoElem :=
  match index with
  | none => none
  | some i => if 0 ≤ i then st.videos.get? i.toNat else none

/-- Mutate the video element at list position `i` (no-op when out of range,
matching the `if (!video) return` guards of the source). -/
def modifyVideo (st : PState) (i : Nat) (f : VideoElem → VideoElem) : PState :=
  match st.videos.get? i with
  | none => st
  | some v => { st with videos := st.videos.set i (f v) }

/-- Mutate the video addressed by a JS `number | undefined` index: the
`getVideo` null checks make an `undefined` or out-of-range index a no-op. -/
def optModify (st : PState) (index : Option Int) (f : VideoElem → VideoElem) : PState :=
  match index with
  | none => st
  | some i => if 0 ≤ i then modifyVideo st i.toNat f else st

/-- `hideVideo(index)`: set the element's display to `'none'`. -/
def PState.hideVideo (st : PState) (index : Option Int) : PState :=
  optModify st index (fun v => { v with display := "none" })

/-- `playVideo(video)` for the video at `index`: set
`playbackRate = this._playbackSpeed` and start playback. -/
def PState.playVideoAt (st : PState) (index : Option Int) : PState :=
  optModify st index (fun v => { v with playbackRate := st.playbackSpeed, paused := false })

/-- `currentVideo?.pause()` for the video at `index`. -/
def PState.pauseVideoAt (st : PState) (index : Option Int) : PState :=
  optModify st index (fun v => { v with paused := true })

/-- `currentVideo.playbackRate = this._playbackSpeed` for the video at `index`
(no-op when there is no such video, matching `if (!currentVideo) return`). -/
def PState.setRateAt (st : PState) (index : Option Int) : PState :=
  optModify st index (fun v => { v with playbackRate := st.playbackSpeed })

/-- Outcome of a `loadSegment` call: resolved synchronously with a value, or
suspended on `await new Promise(... addNotificationAtTime(target, ...))`. -/
inductive LoadOutcome where
  | ret (v : Int)
  | waiting (target : Int)
deriving Repr, DecidableEq

/-- The remainder of `loadSegment` after the optional gap wait: hide the
previous and current videos, show the video at `index`, seek it to
`segmentOffsetMs` (stored in seconds) and commit `_currentIndex = index`;
returns `-1` when the video element is missing. -/
def loadSegmentRest (index : Nat) (segmentOffsetMs : Int) (st : PState) : PState × Int :=
  let st1 := if 0 ≤ (index : Int) - 1 then st.hideVideo (some ((index : Int) - 1)) else st
  let st2 := st1.hideVideo (currentIndexInt st1)
  match st2.videos.get? index with
  | none => (st2, -1)
  | some v =>
    ({ st2 with
        videos := st2.videos.set index
          { v with display := "block", currentTime := (segmentOffsetMs : Rat) / 1000 }
        currentIndex := some index },
      (index : Int))

/-- `loadSegment(index, {segmentOffsetMs})`: returns the sentinel `-1` for an
undefined or out-of-range index; otherwise, if the virtual timer has not yet
reached the segment's start offset, registers a wake-up at that offset and
suspends (`k` is the caller's continuation); otherwise runs the rest of the
body synchronously. -/
def loadSegment (index : Option Int) (segmentOffsetMs : Int) (k : Kont) (st : PState) :
    PState × LoadOutcome :=
  match index with
  | none => (st, .ret (-1))
  | some i =>
    if i < 0 ∨ (st.attachments.length : Int) ≤ i then (st, .ret (-1))
    else
      match st.getSegment (some i) with
      | none => (st, .ret (-1))
      | some currentSegment =>
        let now := st.timer.getTime
        let currentSegmentOffset := currentSegment.timestamp - st.startTimestamp
        if now < currentSegmentOffset then
          ({ st with timer :=
              st.timer.addNotificationAtTime ⟨currentSegmentOffset, i.toNat, segmentOffsetMs, k⟩ },
            .waiting currentSegmentOffset)
        else
          let r := loadSegmentRest i.toNat segmentOffsetMs st
          (r.1, .ret r.2)

/-- The record `{previousSegment, segment}` returned by
`getSegmentIndexForTime`. -/
structure SegmentIndexResult where
  previousSegment : Option Int
  segment : Option Int
deriving Repr, DecidableEq

/-- `getSegmentIndexForTime(relativeOffsetMs)`: looks the absolute timestamp
up with `findSegmentIndex` over the full bounds, then re-checks containment
to classify the result as exact (`segment`) or preceding
(`previousSegment`).  `none` models the TypeError raised when
`resultSegment` is `undefined` (the lookup returned an out-of-range index,
e.g. `-1`). -/
def getSegmentIndexForTime (relativeOffsetMs : Int) (st : PState) : Option SegmentIndexResult :=
  let timestamp := st.startTimestamp + relativeOffsetMs
  match findSegmentIndex st.trackList st.attachments timestamp 0 ((st.trackList.length : Int) - 1) with
  | none => none
  | some result =>
    match st.getSegment (some result) with
    | none => none
    | some resultSegment =>
      if timestamp ≥ resultSegment.timestamp ∧
          timestamp ≤ resultSegment.timestamp + resultSegment.duration then
        some ⟨none, some result⟩
      else
        some ⟨some result, none⟩

/-- Outcome of `loadSegmentAtTime` (and of the enclosing play path):
`crashed` models a TypeError rejecting the promise chain, `retUndef` the
`return undefined` when there is no next segment, `ret v` a synchronous
resolution, `waiting` a suspension on a virtual-timer notification. -/
inductive LSATOut where
  | crashed
  | retUndef
  | ret (v : Int)
  | waiting
deriving Repr, DecidableEq

/-- The tail of `loadSegmentAtTime` from `const segment = this.getSegment(nextSegmentIndex)`
on: compute the intra-segment offset and load the segment; when `withPlay`
is set the caller (`playSegmentAtTime`) plays the loaded video as soon as
the load resolves. -/
def lsatTail (videoOffsetMs : Int) (next : Option Int) (withPlay : Bool) (st : PState) :
    PState × LSATOut :=
  match st.getSegment next with
  | none => (st, .retUndef)
  | some segment =>
    let segmentOffsetMs := (st.startTimestamp + videoOffsetMs) - segment.timestamp
    match loadSegment next segmentOffsetMs (if withPlay then .thenPlay else .done) st with
    | (st', .ret v) => (if withPlay then st'.playVideoAt (some v) else st', .ret v)
    | (st', .waiting _) => (st', .waiting)

/-- Run a stored continuation after a suspended `loadSegment` resolves
with value `v`. -/
def runKont (k : Kont) (v : Int) (st : PState) : PState :=
  match k with
  | .done => st
  | .thenPlay => st.playVideoAt (some v)
  | .lsatRest videoOffsetMs previousIndex withPlay =>
    (lsatTail videoOffsetMs (some ((previousIndex : Int) + 1)) withPlay st).1

/-- Fire a pending notification: the suspended remainder of `loadSegment`
runs, then the stored continuation. -/
def runResume (nt : PNotification) (st : PState) : PState :=
  let r := loadSegmentRest nt.index nt.segmentOffsetMs st
  runKont nt.kont r.2 r.1

/-- `loadSegmentAtTime(videoOffsetMs)`: resolve the offset to a segment; in
the gap case load the previous segment at its full duration first, then
fall through to loading the (possibly deferred) next segment. -/
def loadSegmentAtTime (videoOffsetMs : Int) (withPlay : Bool) (st : PState) :
    PState × LSATOut :=
  match getSegmentIndexForTime videoOffsetMs st with
  | none => (st, .crashed)
  | some res =>
    match res.segment, res.previousSegment with
    | none, some p =>
      match st.getSegment (some p) with
      | none => (st, .crashed)
      | some previousSegment =>
        match loadSegment (some p) previousSegment.duration
            (.lsatRest videoOffsetMs p.toNat withPlay) st with
        | (st', .waiting _) => (st', .waiting)
        | (st', .ret _) => lsatTail videoOffsetMs (some (p + 1)) withPlay st'
    | sIdx, _ => lsatTail videoOffsetMs sIdx withPlay st

/-- `playSegmentAtIndex(index)`: load at intra-segment offset 0, then play
the video at the returned index. -/
def playSegmentAtIndex (index : Option Int) (st : PState) : PState :=
  match loadSegment index 0 .thenPlay st with
  | (st', .ret v) => st'.playVideoAt (some v)
  | (st', .waiting _) => st'

/-- `playSegmentAtTime(videoOffsetMs)`: load at the offset and play the
returned video (skipped when the load returned `undefined`). -/
def playSegmentAtTime (videoOffsetMs : Int) (st : PState) : PState :=
  (loadSegmentAtTime videoOffsetMs true st).1

/-- `getCurrentTime()`: 0 before any segment was activated, else the
virtual timer's value. -/
def getCurrentTime (st : PState) : Int :=
  match st.currentIndex with
  | none => 0
  | some _ => st.timer.getTime

/-- `play(videoOffsetMs)`: start the virtual timer at the offset, then play
the segment at that offset. -/
def play (videoOffsetMs : Int) (st : PState) : PState :=
  playSegmentAtTime videoOffsetMs { st with timer := st.timer.start videoOffsetMs }

/-- `pause(videoOffsetMs)`: pause the current video, freeze the timer at the
offset, then re-load the segment for that offset without resuming playback. -/
def pause (videoOffsetMs : Int) (st : PState) : PState :=
  let st1 := st.pauseVideoAt (currentIndexInt st)
  let st2 := { st1 with timer := st1.timer.stop (some videoOffsetMs) }
  (loadSegmentAtTime videoOffsetMs false st2).1

/-- `setConfig({speed})`: no-op when `speed` is `undefined`; otherwise store
the multiplier and apply it to the current video's decode rate. -/
def setConfig (speed : Option Rat) (st : PState) : PState :=
  match speed with
  | none => st
  | some s =>
    let st1 := { st with playbackSpeed := s }
    st1.setRateAt (currentIndexInt st1)

/-- `handleSegmentEnd(index)` (a handle's `ended` listener): advance to
`index + 1`, or stop the timer and fire `onFinished` when there is no next
segment.  `finishedCount` counts `onFinished` invocations. -/
def handleSegmentEnd (index : Nat) (st : PState) : PState :=
  let nextIndex := index + 1
  if st.attachments.length ≤ nextIndex then
    let st1 := { st with timer := st.timer.stop none }
    { st1 with finishedCount := st1.finishedCount + 1 }
  else
    playSegmentAtIndex (some (nextIndex : Int)) st

/-- The constructor: all videos created hidden, the track list derived from
the attachments, then a fire-and-forget `loadSegment(0)`. -/
def initState (attachments : List MobileAttachment) (start : Int) : PState :=
  let st0 : PState :=
    { attachments := attachments
      currentIndex := none
      playbackSpeed := 1
      startTimestamp := start
      timer := ⟨0, false, []⟩
      trackList := trackListOf attachments
      videos := attachments.map (fun a => createVideo a 1)
      finishedCount := 0 }
  (loadSegment (some 0) 0 .done st0).1

/-- The shown-handle invariant: any video whose display is not `"none"` is
the one at the active segment index (so at most one is shown). -/
def Inv (st : PState) : Prop :=
  ∀ i, i < st.videos.length → (st.videos.getD i dfltVideo).display ≠ "none" →
    st.currentIndex = some i

instance (st : PState) : Decidable (Inv st) := by
  unfold Inv; infer_instance

/-- One completed operation step of the player: a public call, a segment-end
callback, real-time progression of the running timer, or a due notification
firing and resuming its suspended load. -/
inductive Step : PState → PState → Prop where
  | stepPlay (off : Int) (st : PState) : Step st (play off st)
  | stepPause (off : Int) (st : PState) : Step st (pause off st)
  | stepSetConfig (speed : Option Rat) (st : PState) : Step st (setConfig speed st)
  | stepSegmentEnd (index : Nat) (st : PState) : Step st (handleSegmentEnd index st)
  | stepAdvance (dt : Nat) (st : PState) : st.timer.running = true →
      Step st { st with timer := { st.timer with time := st.timer.time + dt } }
  | stepFire (st : PState) (nt : PNotification) : st.timer.running = true →
      nt ∈ st.timer.notifications → nt.target ≤ st.timer.time →
      Step st (runResume nt
        { st with timer := { st.timer with notifications := st.timer.notifications.erase nt } })

/-! ### Helper lemmas about the segment order and the track list -/

/-- Start timestamp of the `k`-th segment. -/
def segStart (segs : List MobileAttachment) (k : Nat) : Int :=
  (segs.getD k dfltAttachment).timestamp

/-- Duration of the `k`-th segment. -/
def segDur (segs : List MobileAttachment) (k : Nat) : Int :=
  (segs.getD k dfltAttachment).duration

/-- All durations are nonnegative. -/
def DurNonneg (segs : List MobileAttachment) : Prop :=
  ∀ k, k < segs.length → 0 ≤ segDur segs k

/-- Consecutive segments do not overlap: each ends no later than the next
starts (with `DurNonneg` this makes the start timestamps sorted ascending). -/
def NonOverlapping (segs : List MobileAttachment) : Prop :=
  ∀ k, k < segs.length → k + 1 < segs.length →
    segStart segs k + segDur segs k ≤ segStart segs (k + 1)

instance (segs : List MobileAttachment) : Decidable (DurNonneg segs) := by
  unfold DurNonneg; infer_instance

instance (segs : List MobileAttachment) : Decidable (NonOverlapping segs) := by
  unfold NonOverlapping; infer_instance

lemma getD_eq_of_get? {α : Type} {l : List α} {k : Nat} {a d : α}
    (h : l.get? k = some a) : l.getD k d = a := by
  simp [List.getD_eq_getElem?_getD, ← List.get?_eq_getElem?, h]

lemma get?_eq_getD {α : Type} {l : List α} {k : Nat} (d : α) (h : k < l.length) :
    l.get? k = some (l.getD k d) := by
  cases h' : l.get? k with
  | none =>
    have := List.get?_eq_none.mp h'
    omega
  | some a => rw [getD_eq_of_get? h']

lemma trackListOf_get? (atts : List MobileAttachment) (k : Nat) :
    (trackListOf atts).get? k = (atts.get? k).map fun a => (a.timestamp, k) := by
  simp only [trackListOf, List.get?_eq_getElem?, List.getElem?_map, List.getElem?_enum]
  cases atts[k]? <;> simp

lemma trackListOf_length (atts : List MobileAttachment) :
    (trackListOf atts).length = atts.length := by
  simp [trackListOf]

lemma seg_chain {segs : List MobileAttachment} (hd : DurNonneg segs)
    (hsep : NonOverlapping segs) {j : Nat} :
    ∀ k, j ≤ k → k < segs.length →
      segStart segs j ≤ segStart segs k ∧
        (j < k → segStart segs j + segDur segs j ≤ segStart segs k) := by
  intro k
  induction k with
  | zero =>
    intro hjk _
    have : j = 0 := by omega
    subst this
    exact ⟨le_refl _, by omega⟩
  | succ k ih =>
    intro hjk hk
    rcases Nat.eq_or_lt_of_le hjk with heq | hlt
    · subst heq
      exact ⟨le_refl _, by omega⟩
    · have hjk' : j ≤ k := by omega
      have ih' := ih hjk' (by omega)
      have h2 := hsep k (by omega) (by omega)
      have h3 := hd k (by omega)
      have h5 : segStart segs j ≤ segStart segs k := ih'.1
      refine ⟨by omega, fun _ => ?_⟩
      rcases Nat.eq_or_lt_of_le hjk' with heq2 | hlt2
      · subst heq2
        omega
      · have := ih'.2 hlt2
        omega

lemma segStart_mono {segs : List MobileAttachment} (hd : DurNonneg segs)
    (hsep : NonOverlapping segs) {j k : Nat} (hjk : j ≤ k) (hk : k < segs.length) :
    segStart segs j ≤ segStart segs k :=
  (seg_chain hd hsep k hjk hk).1

lemma segEnd_le_segStart {segs : List MobileAttachment} (hd : DurNonneg segs)
    (hsep : NonOverlapping segs) {j k : Nat} (hjk : j < k) (hk : k < segs.length) :
    segStart segs j + segDur segs j ≤ segStart segs k :=
  (seg_chain hd hsep k (Nat.le_of_lt hjk) hk).2 hjk

/-- A target strictly inside segment `i` is (weakly) contained in no other
segment. -/
lemma contain_unique {segs : List MobileAttachment} (hd : DurNonneg segs)
    (hsep : NonOverlapping segs) {target : Int} {i j : Nat}
    (hi : i < segs.length) (hj : j < segs.length)
    (hlo : segStart segs i < target) (hhi : target < segStart segs i + segDur segs i)
    (hcj : segStart segs j ≤ target ∧ target ≤ segStart segs j + segDur segs j) :
    j = i := by
  rcases Nat.lt_trichotomy j i with h | h | h
  · have := segEnd_le_segStart hd hsep h hi
    omega
  · exact h
  · have := segEnd_le_segStart hd hsep h hj
    omega

/-- Extract the canonical track-list probe: entry `mid` holds the `mid`-th
segment's timestamp paired with `mid` itself. -/
lemma trackList_probe {segs : List MobileAttachment} {m : Nat} {ts : Int} {index : Nat}
    (htl : (trackListOf segs).get? m = some (ts, index)) :
    index = m ∧ m < segs.length ∧ ts = segStart segs m := by
  rw [trackListOf_get?] at htl
  rcases Option.map_eq_some'.mp htl with ⟨a, ha, heq⟩
  injection heq with h1 h2
  have hm : m < segs.length := by
    by_contra hge
    rw [List.get?_eq_none.mpr (by omega)] at ha
    exact Option.noConfusion ha
  exact ⟨h2.symm, hm, by rw [← h1, segStart, getD_eq_of_get? ha]⟩

/-- Binary-search correctness, exact case: if `target` is strictly inside
segment `i` and `i` lies within the search bounds, the search returns `i`. -/
lemma fsi_exact_aux (segs : List MobileAttachment) (target : Int)
    (hd : DurNonneg segs) (hsep : NonOverlapping segs)
    (i : Nat) (hi : i < segs.length)
    (hlo : segStart segs i < target) (hhi : target < segStart segs i + segDur segs i) :
    ∀ s e : Int, 0 ≤ s → e < (segs.length : Int) → s ≤ (i : Int) → (i : Int) ≤ e →
      findSegmentIndex (trackListOf segs) segs target s e = some (i : Int) := by
  intro s e
  induction s, e using findSegmentIndex.induct (trackListOf segs) segs target with
  | case1 s e hgt =>
    intro h0 hen his hie
    omega
  | case2 s e hgt mid hmid =>
    intro h0 hen his hie
    have hzeta : mid = (s + e).fdiv 2 := rfl
    have hfde : (s + e).fdiv 2 = (s + e) / 2 := Int.fdiv_eq_ediv _ (by omega)
    rw [hzeta, hfde] at hmid
    omega
  | case3 s e hgt mid hmid htl =>
    intro h0 hen his hie
    have hzeta : mid = (s + e).fdiv 2 := rfl
    have hfde : (s + e).fdiv 2 = (s + e) / 2 := Int.fdiv_eq_ediv _ (by omega)
    rw [hzeta, hfde] at hmid htl
    rw [trackListOf_get?] at htl
    have hnone := Option.map_eq_none'.mp htl
    have := List.get?_eq_none.mp hnone
    omega
  | case4 s e hgt mid hmid ts index htl hseg =>
    intro h0 hen his hie
    obtain ⟨hidx, hm, hts⟩ := trackList_probe htl
    rw [hidx, get?_eq_getD dfltAttachment hm] at hseg
    exact Option.noConfusion hseg
  | case5 s e hgt mid hmid ts index htl segment hseg hcont =>
    intro h0 hen his hie
    have hzeta : mid = (s + e).fdiv 2 := rfl
    rw [hzeta] at hmid htl
    obtain ⟨hidx, hm, hts⟩ := trackList_probe htl
    have hsegv : segment = segs.getD ((s + e).fdiv 2).toNat dfltAttachment := by
      rw [hidx, get?_eq_getD dfltAttachment hm] at hseg
      exact (Option.some.injEq _ _ ▸ hseg).symm
    have heqi : ((s + e).fdiv 2).toNat = i := by
      refine contain_unique hd hsep hi hm hlo hhi ?_
      refine ⟨?_, ?_⟩
      · rw [← hts]; exact hcont.1
      · rw [segDur, ← hsegv, ← hts]; exact hcont.2
    rw [findSegmentIndex.eq_def]
    simp only [if_neg hgt, if_neg hmid, htl, hseg, if_pos hcont]
    rw [hidx, heqi]
  | case6 s e hgt mid hmid ts index htl segment hseg hcont htgt ih =>
    intro h0 hen his hie
    have hzeta : mid = (s + e).fdiv 2 := rfl
    have hfde : (s + e).fdiv 2 = (s + e) / 2 := Int.fdiv_eq_ediv _ (by omega)
    rw [hzeta] at hmid htl
    obtain ⟨hidx, hm, hts⟩ := trackList_probe htl
    have hsegv : segment = segs.getD ((s + e).fdiv 2).toNat dfltAttachment := by
      rw [hidx, get?_eq_getD dfltAttachment hm] at hseg
      exact (Option.some.injEq _ _ ▸ hseg).symm
    have hgtmid : ((s + e).fdiv 2).toNat < i := by
      rcases Nat.lt_trichotomy (((s + e).fdiv 2).toNat) i with h | h | h
      · exact h
      · exfalso
        apply hcont
        rw [h] at hts hsegv
        have hdur : segment.duration = segDur segs i := by rw [hsegv]; rfl
        exact ⟨by omega, by omega⟩
      · exfalso
        have := segEnd_le_segStart hd hsep h hm
        rw [← hts] at this
        omega
    rw [findSegmentIndex.eq_def]
    simp only [if_neg hgt, if_neg hmid, htl, hseg, if_neg hcont, if_pos htgt]
    exact ih (by omega) hen (by omega) hie
  | case7 s e hgt mid hmid ts index htl segment hseg hcont htgt ih =>
    intro h0 hen his hie
    have hzeta : mid = (s + e).fdiv 2 := rfl
    have hfde : (s + e).fdiv 2 = (s + e) / 2 := Int.fdiv_eq_ediv _ (by omega)
    rw [hzeta] at hmid htl
    obtain ⟨hidx, hm, hts⟩ := trackList_probe htl
    have hsegv : segment = segs.getD ((s + e).fdiv 2).toNat dfltAttachment := by
      rw [hidx, get?_eq_getD dfltAttachment hm] at hseg
      exact (Option.some.injEq _ _ ▸ hseg).symm
    have hlt : target < ts := by
      rcases lt_or_eq_of_le (not_lt.mp htgt) with h | h
      · exact h
      · exfalso
        apply hcont
        refine ⟨by omega, ?_⟩
        have := hd (((s + e).fdiv 2).toNat) hm
        have hdur : segment.duration = segDur segs (((s + e).fdiv 2).toNat) := by
          rw [hsegv]; rfl
        omega
    have hltmid : i < ((s + e).fdiv 2).toNat := by
      by_contra hge
      have := segStart_mono hd hsep (Nat.le_of_not_lt hge) hi
      rw [← hts] at this
      omega
    rw [findSegmentIndex.eq_def]
    simp only [if_neg hgt, if_neg hmid, htl, hseg, if_neg hcont, if_neg htgt]
    exact ih h0 (by omega) his (by omega)

/-- Binary-search characterization when no segment contains the target: the
search returns the greatest index whose start is `≤ target` (or one below
the lower bound), as long as the bounds partition the list consistently. -/
lemma fsi_pred_aux (segs : List MobileAttachment) (target : Int)
    (hd : DurNonneg segs) (hsep : NonOverlapping segs)
    (hnc : ∀ j, j < segs.length →
      ¬(segStart segs j ≤ target ∧ target ≤ segStart segs j + segDur segs j)) :
    ∀ s e : Int, 0 ≤ s → e < (segs.length : Int) → s ≤ e + 1 →
      (∀ j, j < segs.length → e < (j : Int) → target < segStart segs j) →
      (∀ j, j < segs.length → (j : Int) < s → segStart segs j ≤ target) →
      ∃ r : Int, findSegmentIndex (trackListOf segs) segs target s e = some r ∧
        s - 1 ≤ r ∧ r ≤ e ∧
        (∀ j, j < segs.length → r < (j : Int) → target < segStart segs j) ∧
        (∀ j, j < segs.length → (j : Int) ≤ r → segStart segs j ≤ target) := by
  intro s e
  induction s, e using findSegmentIndex.induct (trackListOf segs) segs target with
  | case1 s e hgt =>
    intro h0 hen hse hup hlow
    refine ⟨e, ?_, by omega, le_refl _, hup, fun j hj hje => hlow j hj (by omega)⟩
    rw [findSegmentIndex.eq_def, if_pos hgt]
  | case2 s e hgt mid hmid =>
    intro h0 hen hse hup hlow
    have hzeta : mid = (s + e).fdiv 2 := rfl
    have hfde : (s + e).fdiv 2 = (s + e) / 2 := Int.fdiv_eq_ediv _ (by omega)
    rw [hzeta, hfde] at hmid
    omega
  | case3 s e hgt mid hmid htl =>
    intro h0 hen hse hup hlow
    have hzeta : mid = (s + e).fdiv 2 := rfl
    have hfde : (s + e).fdiv 2 = (s + e) / 2 := Int.fdiv_eq_ediv _ (by omega)
    rw [hzeta, hfde] at hmid htl
    rw [trackListOf_get?] at htl
    have hnone := Option.map_eq_none'.mp htl
    have := List.get?_eq_none.mp hnone
    omega
  | case4 s e hgt mid hmid ts index htl hseg =>
    intro h0 hen hse hup hlow
    obtain ⟨hidx, hm, hts⟩ := trackList_probe htl
    rw [hidx, get?_eq_getD dfltAttachment hm] at hseg
    exact Option.noConfusion hseg
  | case5 s e hgt mid hmid ts index htl segment hseg hcont =>
    intro h0 hen hse hup hlow
    have hzeta : mid = (s + e).fdiv 2 := rfl
    rw [hzeta] at hmid htl
    obtain ⟨hidx, hm, hts⟩ := trackList_probe htl
    have hsegv : segment = segs.getD ((s + e).fdiv 2).toNat dfltAttachment := by
      rw [hidx, get?_eq_getD dfltAttachment hm] at hseg
      exact (Option.some.injEq _ _ ▸ hseg).symm
    exfalso
    apply hnc (((s + e).fdiv 2).toNat) hm
    have hdur : segment.duration = segDur segs (((s + e).fdiv 2).toNat) := by
      rw [hsegv]; rfl
    exact ⟨by omega, by omega⟩
  | case6 s e hgt mid hmid ts index htl segment hseg hcont htgt ih =>
    intro h0 hen hse hup hlow
    have hzeta : mid = (s + e).fdiv 2 := rfl
    have hfde : (s + e).fdiv 2 = (s + e) / 2 := Int.fdiv_eq_ediv _ (by omega)
    rw [hzeta] at hmid htl
    obtain ⟨hidx, hm, hts⟩ := trackList_probe htl
    have hmide : mid ≤ e ∧ s ≤ mid := by
      constructor <;> (rw [hzeta, hfde]; omega)
    have hlow' : ∀ j, j < segs.length → (j : Int) < mid + 1 → segStart segs j ≤ target := by
      intro j hj hjm
      have hjle : j ≤ ((s + e).fdiv 2).toNat := by
        rw [hzeta] at hjm
        omega
      have := segStart_mono hd hsep hjle hm
      rw [← hts] at this
      omega
    obtain ⟨r, hr, hr1, hr2, hr3, hr4⟩ := ih (by omega) hen (by omega) hup hlow'
    refine ⟨r, ?_, by omega, by omega, hr3, hr4⟩
    rw [findSegmentIndex.eq_def]
    simp only [if_neg hgt, if_neg hmid, htl, hseg, if_neg hcont, if_pos htgt]
    exact hr
  | case7 s e hgt mid hmid ts index htl segment hseg hcont htgt ih =>
    intro h0 hen hse hup hlow
    have hzeta : mid = (s + e).fdiv 2 := rfl
    have hfde : (s + e).fdiv 2 = (s + e) / 2 := Int.fdiv_eq_ediv _ (by omega)
    rw [hzeta] at hmid htl
    obtain ⟨hidx, hm, hts⟩ := trackList_probe htl
    have hsegv : segment = segs.getD ((s + e).fdiv 2).toNat dfltAttachment := by
      rw [hidx, get?_eq_getD dfltAttachment hm] at hseg
      exact (Option.some.injEq _ _ ▸ hseg).symm
    have hlt : target < ts := by
      rcases lt_or_eq_of_le (not_lt.mp htgt) with h | h
      · exact h
      · exfalso
        apply hcont
        refine ⟨by omega, ?_⟩
        have := hd (((s + e).fdiv 2).toNat) hm
        have hdur : segment.duration = segDur segs (((s + e).fdiv 2).toNat) := by
          rw [hsegv]; rfl
        omega
    have hmide : mid ≤ e ∧ s ≤ mid := by
      constructor <;> (rw [hzeta, hfde]; omega)
    have hup' : ∀ j, j < segs.length → mid - 1 < (j : Int) → target < segStart segs j := by
      intro j hj hjm
      have hjge : ((s + e).fdiv 2).toNat ≤ j := by
        rw [hzeta] at hjm
        omega
      have := segStart_mono hd hsep hjge hj
      rw [← hts] at this
      omega
    obtain ⟨r, hr, hr1, hr2, hr3, hr4⟩ := ih h0 (by omega) (by omega) hup' hlow
    refine ⟨r, ?_, by omega, by omega, hr3, hr4⟩
    rw [findSegmentIndex.eq_def]
    simp only [if_neg hgt, if_neg hmid, htl, hseg, if_neg hcont, if_neg htgt]
    exact hr

/-- If the target is at or after the first segment's start, the search over
nonnegative bounds always lands on an in-range index (never `-1`). -/
lemma fsi_inrange_aux (segs : List MobileAttachment) (target : Int)
    (hd : DurNonneg segs) (hts0 : segStart segs 0 ≤ target) :
    ∀ s e : Int, 0 ≤ s → 0 ≤ e → e < (segs.length : Int) →
      ∃ r : Int, findSegmentIndex (trackListOf segs) segs target s e = some r ∧
        0 ≤ r ∧ r < (segs.length : Int) := by
  intro s e
  induction s, e using findSegmentIndex.induct (trackListOf segs) segs target with
  | case1 s e hgt =>
    intro h0 he0 hen
    exact ⟨e, by rw [findSegmentIndex.eq_def, if_pos hgt], he0, hen⟩
  | case2 s e hgt mid hmid =>
    intro h0 he0 hen
    have hzeta : mid = (s + e).fdiv 2 := rfl
    have hfde : (s + e).fdiv 2 = (s + e) / 2 := Int.fdiv_eq_ediv _ (by omega)
    rw [hzeta, hfde] at hmid
    omega
  | case3 s e hgt mid hmid htl =>
    intro h0 he0 hen
    have hzeta : mid = (s + e).fdiv 2 := rfl
    have hfde : (s + e).fdiv 2 = (s + e) / 2 := Int.fdiv_eq_ediv _ (by omega)
    rw [hzeta, hfde] at hmid htl
    rw [trackListOf_get?] at htl
    have hnone := Option.map_eq_none'.mp htl
    have := List.get?_eq_none.mp hnone
    omega
  | case4 s e hgt mid hmid ts index htl hseg =>
    intro h0 he0 hen
    obtain ⟨hidx, hm, hts⟩ := trackList_probe htl
    rw [hidx, get?_eq_getD dfltAttachment hm] at hseg
    exact Option.noConfusion hseg
  | case5 s e hgt mid hmid ts index htl segment hseg hcont =>
    intro h0 he0 hen
    have hzeta : mid = (s + e).fdiv 2 := rfl
    rw [hzeta] at hmid htl
    obtain ⟨hidx, hm, hts⟩ := trackList_probe htl
    refine ⟨(index : Int), ?_, by omega, by rw [hidx]; omega⟩
    rw [findSegmentIndex.eq_def]
    simp only [if_neg hgt, if_neg hmid, htl, hseg, if_pos hcont]
  | case6 s e hgt mid hmid ts index htl segment hseg hcont htgt ih =>
    intro h0 he0 hen
    have hzeta : mid = (s + e).fdiv 2 := rfl
    rw [hzeta] at hmid htl
    obtain ⟨r, hr, hr0, hrn⟩ := ih (by omega) he0 hen
    refine ⟨r, ?_, hr0, hrn⟩
    rw [findSegmentIndex.eq_def]
    simp only [if_neg hgt, if_neg hmid, htl, hseg, if_neg hcont, if_pos htgt]
    exact hr
  | case7 s e hgt mid hmid ts index htl segment hseg hcont htgt ih =>
    intro h0 he0 hen
    have hzeta : mid = (s + e).fdiv 2 := rfl
    have hfde : (s + e).fdiv 2 = (s + e) / 2 := Int.fdiv_eq_ediv _ (by omega)
    rw [hzeta] at hmid htl
    obtain ⟨hidx, hm, hts⟩ := trackList_probe htl
    have hsegv : segment = segs.getD ((s + e).fdiv 2).toNat dfltAttachment := by
      rw [hidx, get?_eq_getD dfltAttachment hm] at hseg
      exact (Option.some.injEq _ _ ▸ hseg).symm
    have hlt : target < ts := by
      rcases lt_or_eq_of_le (not_lt.mp htgt) with h | h
      · exact h
      · exfalso
        apply hcont
        refine ⟨by omega, ?_⟩
        have := hd (((s + e).fdiv 2).toNat) hm
        have hdur : segment.duration = segDur segs (((s + e).fdiv 2).toNat) := by
          rw [hsegv]; rfl
        omega
    have hmid1 : 1 ≤ ((s + e).fdiv 2).toNat := by
      by_contra hz
      have hz0 : ((s + e).fdiv 2).toNat = 0 := by omega
      rw [hz0] at hts
      omega
    obtain ⟨r, hr, hr0, hrn⟩ := ih h0 (by omega) (by omega)
    refine ⟨r, ?_, hr0, hrn⟩
    rw [findSegmentIndex.eq_def]
    simp only [if_neg hgt, if_neg hmid, htl, hseg, if_neg hcont, if_neg htgt]
    exact hr

/-- With the canonical track list and bounds inside the list, the search
never performs an out-of-range access: it always produces a value. -/
lemma fsi_total_aux (segs : List MobileAttachment) (target : Int) :
    ∀ s e : Int, 0 ≤ s → e < (segs.length : Int) →
      (findSegmentIndex (trackListOf segs) segs target s e).isSome = true := by
  intro s e
  induction s, e using findSegmentIndex.induct (trackListOf segs) segs target with
  | case1 s e hgt =>
    intro h0 hen
    rw [findSegmentIndex.eq_def, if_pos hgt]
    rfl
  | case2 s e hgt mid hmid =>
    intro h0 hen
    have hzeta : mid = (s + e).fdiv 2 := rfl
    have hfde : (s + e).fdiv 2 = (s + e) / 2 := Int.fdiv_eq_ediv _ (by omega)
    rw [hzeta, hfde] at hmid
    omega
  | case3 s e hgt mid hmid htl =>
    intro h0 hen
    have hzeta : mid = (s + e).fdiv 2 := rfl
    have hfde : (s + e).fdiv 2 = (s + e) / 2 := Int.fdiv_eq_ediv _ (by omega)
    rw [hzeta, hfde] at hmid htl
    rw [trackListOf_get?] at htl
    have hnone := Option.map_eq_none'.mp htl
    have := List.get?_eq_none.mp hnone
    omega
  | case4 s e hgt mid hmid ts index htl hseg =>
    intro h0 hen
    obtain ⟨hidx, hm, hts⟩ := trackList_probe htl
    rw [hidx, get?_eq_getD dfltAttachment hm] at hseg
    exact Option.noConfusion hseg
  | case5 s e hgt mid hmid ts index htl segment hseg hcont =>
    intro h0 hen
    have hzeta : mid = (s + e).fdiv 2 := rfl
    rw [hzeta] at hmid htl
    rw [findSegmentIndex.eq_def]
    simp only [if_neg hgt, if_neg hmid, htl, hseg, if_pos hcont]
    rfl
  | case6 s e hgt mid hmid ts index htl segment hseg hcont htgt ih =>
    intro h0 hen
    have hzeta : mid = (s + e).fdiv 2 := rfl
    rw [hzeta] at hmid htl
    rw [findSegmentIndex.eq_def]
    simp only [if_neg hgt, if_neg hmid, htl, hseg, if_neg hcont, if_pos htgt]
    exact ih (by omega) hen
  | case7 s e hgt mid hmid ts index htl segment hseg hcont htgt ih =>
    intro h0 hen
    have hzeta : mid = (s + e).fdiv 2 := rfl
    have hfde : (s + e).fdiv 2 = (s + e) / 2 := Int.fdiv_eq_ediv _ (by omega)
    rw [hzeta] at hmid htl
    rw [findSegmentIndex.eq_def]
    simp only [if_neg hgt, if_neg hmid, htl, hseg, if_neg hcont, if_neg htgt]
    exact ih h0 (by omega)

/-- Fuel-indexed variant of `findSegmentIndex`: identical branching, with
each recursive call consuming one unit of fuel; `none` means the fuel ran
out before the recursion finished. -/
def findSegmentIndexF :
    Nat → List (Int × Nat) → List MobileAttachment → Int → Int → Int → Option (Option Int)
  | 0, _, _, _, _, _ => none
  | fuel + 1, trackList, segments, targetTimestamp, start, end_ =>
    if start > end_ then some (some end_)
    else
      let mid := (start + end_).fdiv 2
      if mid < 0 then some none
      else
        match trackList.get? mid.toNat with
        | none => some none
        | some (ts, index) =>
          match segments.get? index with
          | none => some none
          | some segment =>
            if targetTimestamp ≥ ts ∧ targetTimestamp ≤ ts + segment.duration then
              some (some (index : Int))
            else if targetTimestamp > ts then
              findSegmentIndexF fuel trackList segments targetTimestamp (mid + 1) end_
            else
              findSegmentIndexF fuel trackList segments targetTimestamp start (mid - 1)

/-- Any fuel exceeding the size of the search interval suffices: the
recursion terminates and the fuel-indexed search computes what
`findSegmentIndex` computes. -/
lemma fsiF_adequate :
    ∀ (fuel : Nat) (trackList : List (Int × Nat)) (segments : List MobileAttachment)
      (targetTimestamp s e : Int), (e + 1 - s).toNat < fuel →
      findSegmentIndexF fuel trackList segments targetTimestamp s e =
        some (findSegmentIndex trackList segments targetTimestamp s e) := by
  intro fuel
  induction fuel with
  | zero => intro _ _ _ _ _ hm; omega
  | succ fuel ih =>
    intro tl segs t s e hm
    by_cases hgt : s > e
    · rw [findSegmentIndex.eq_def, if_pos hgt]
      simp only [findSegmentIndexF, if_pos hgt]
    · have hfde : (s + e).fdiv 2 = (s + e) / 2 := Int.fdiv_eq_ediv _ (by omega)
      by_cases hmid : (s + e).fdiv 2 < 0
      · rw [findSegmentIndex.eq_def, if_neg hgt]
        simp only [findSegmentIndexF, if_neg hgt, if_pos hmid]
      · cases htl : tl.get? ((s + e).fdiv 2).toNat with
        | none =>
          rw [findSegmentIndex.eq_def, if_neg hgt]
          simp only [findSegmentIndexF, if_neg hgt, if_neg hmid, htl]
        | some p =>
          obtain ⟨ts, index⟩ := p
          cases hseg : segs.get? index with
          | none =>
            rw [findSegmentIndex.eq_def, if_neg hgt]
            simp only [findSegmentIndexF, if_neg hgt, if_neg hmid, htl, hseg]
          | some segment =>
            by_cases hcont : t ≥ ts ∧ t ≤ ts + segment.duration
            · rw [findSegmentIndex.eq_def, if_neg hgt]
              simp only [findSegmentIndexF, if_neg hgt, if_neg hmid, htl, hseg, if_pos hcont]
            · by_cases htgt : t > ts
              · rw [findSegmentIndex.eq_def, if_neg hgt]
                simp only [findSegmentIndexF, if_neg hgt, if_neg hmid, htl, hseg,
                  if_neg hcont, if_pos htgt]
                exact ih tl segs t ((s + e).fdiv 2 + 1) e (by rw [hfde]; omega)
              · rw [findSegmentIndex.eq_def, if_neg hgt]
                simp only [findSegmentIndexF, if_neg hgt, if_neg hmid, htl, hseg,
                  if_neg hcont, if_neg htgt]
                exact ih tl segs t s ((s + e).fdiv 2 - 1) (by rw [hfde]; omega)

/-! ### Claim theorems about the segment lookup -/

/-- **C1**: For every segment list sorted ascending by start timestamp with
no overlapping segments, and every target timestamp strictly inside segment
`i` (`seg.start < target < seg.start + seg.duration`), `findSegmentIndex`
called over the full bounds `[0, n-1]` returns exactly `i`. -/
theorem c1_exact_lookup_returns_containing_segment
    (segs : List MobileAttachment) (target : Int) (i : Nat)
    (hd : DurNonneg segs) (hsep : NonOverlapping segs)
    (hi : i < segs.length)
    (hlo : segStart segs i < target)
    (hhi : target < segStart segs i + segDur segs i) :
    findSegmentIndex (trackListOf segs) segs target 0 ((segs.length : Int) - 1) =
      some (i : Int) :=
  fsi_exact_aux segs target hd hsep i hi hlo hhi 0 ((segs.length : Int) - 1)
    (le_refl 0) (by omega) (by omega) (by omega)

theorem c1_exact_lookup_returns_containing_segment_witness :
    segStart [⟨1000, 0, "a"⟩, ⟨1000, 1500, "b"⟩] 1 < 2000 ∧
    findSegmentIndex (trackListOf [⟨1000, 0, "a"⟩, ⟨1000, 1500, "b"⟩])
        [⟨1000, 0, "a"⟩, ⟨1000, 1500, "b"⟩] 2000 0
        ((([⟨1000, 0, "a"⟩, ⟨1000, 1500, "b"⟩] : List MobileAttachment).length : Int) - 1) =
      some 1 :=
  ⟨by decide,
    c1_exact_lookup_returns_containing_segment [⟨1000, 0, "a"⟩, ⟨1000, 1500, "b"⟩] 2000 1
      (by decide) (by decide) (by decide) (by decide) (by decide)⟩

/-- When no segment contains the target, the full-bounds search returns
the index `i` characterized as "latest start `≤ target`". -/
lemma fsi_pred_at (segs : List MobileAttachment) (target : Int)
    (hd : DurNonneg segs) (hsep : NonOverlapping segs)
    (hnc : ∀ j, j < segs.length →
      ¬(segStart segs j ≤ target ∧ target ≤ segStart segs j + segDur segs j))
    (i : Nat) (hi : i < segs.length) (hle : segStart segs i ≤ target)
    (hnext : i + 1 < segs.length → target < segStart segs (i + 1)) :
    findSegmentIndex (trackListOf segs) segs target 0 ((segs.length : Int) - 1) =
      some (i : Int) := by
  obtain ⟨r, hr, hr1, hr2, hr3, hr4⟩ :=
    fsi_pred_aux segs target hd hsep hnc 0 ((segs.length : Int) - 1)
      (le_refl 0) (by omega) (by omega)
      (fun j hj hje => absurd hje (by omega))
      (fun j hj hj0 => absurd hj0 (by omega))
  have hri : r = (i : Int) := by
    rcases lt_trichotomy r (i : Int) with h | h | h
    · exfalso
      have := hr3 i hi h
      omega
    · exact h
    · exfalso
      have hi1n : i + 1 < segs.length := by omega
      have h4 := hr4 (i + 1) hi1n (by omega)
      have := hnext hi1n
      omega
  rw [hr, hri]

/-- **C2**: For every sorted, non-overlapping segment list and every target
timestamp contained in no segment's `[start, start+duration]` interval,
`findSegmentIndex` over the full bounds returns the index of the latest
segment whose start is `≤ target` (a target in the gap between segment `i`
and `i+1` yields `i`); and if the target precedes every segment's start,
it returns `-1`, one below the first index. -/
theorem c2_gap_lookup_returns_preceding_segment
    (segs : List MobileAttachment) (target : Int)
    (hd : DurNonneg segs) (hsep : NonOverlapping segs)
    (hnc : ∀ j, j < segs.length →
      ¬(segStart segs j ≤ target ∧ target ≤ segStart segs j + segDur segs j)) :
    (∀ i, i < segs.length → segStart segs i ≤ target →
      (i + 1 < segs.length → target < segStart segs (i + 1)) →
      findSegmentIndex (trackListOf segs) segs target 0 ((segs.length : Int) - 1) =
        some (i : Int)) ∧
    ((∀ j, j < segs.length → target < segStart segs j) →
      findSegmentIndex (trackListOf segs) segs target 0 ((segs.length : Int) - 1) =
        some (-1)) := by
  constructor
  · intro i hi hle hnext
    exact fsi_pred_at segs target hd hsep hnc i hi hle hnext
  · intro hall
    obtain ⟨r, hr, hr1, hr2, hr3, hr4⟩ :=
      fsi_pred_aux segs target hd hsep hnc 0 ((segs.length : Int) - 1)
        (le_refl 0) (by omega) (by omega)
        (fun j hj hje => absurd hje (by omega))
        (fun j hj hj0 => absurd hj0 (by omega))
    have hrm : r = -1 := by
      by_contra hne
      have h0r : 0 ≤ r := by omega
      have h4 := hr4 r.toNat (by omega) (by omega)
      have := hall r.toNat (by omega)
      omega
    rw [hr, hrm]

theorem c2_gap_lookup_returns_preceding_segment_witness :
    DurNonneg [⟨1000, 0, "a"⟩, ⟨1000, 1500, "b"⟩] ∧
    (findSegmentIndex (trackListOf [⟨1000, 0, "a"⟩, ⟨1000, 1500, "b"⟩])
        [⟨1000, 0, "a"⟩, ⟨1000, 1500, "b"⟩] 1200 0
        ((([⟨1000, 0, "a"⟩, ⟨1000, 1500, "b"⟩] : List MobileAttachment).length : Int) - 1) =
      some 0) ∧
    (findSegmentIndex (trackListOf [⟨1000, 2000, "c"⟩])
        [⟨1000, 2000, "c"⟩] 100 0
        ((([⟨1000, 2000, "c"⟩] : List MobileAttachment).length : Int) - 1) =
      some (-1)) :=
  ⟨by decide,
    (c2_gap_lookup_returns_preceding_segment [⟨1000, 0, "a"⟩, ⟨1000, 1500, "b"⟩] 1200
      (by decide) (by decide) (by decide)).1 0 (by decide) (by decide)
      (fun _ => by decide),
    (c2_gap_lookup_returns_preceding_segment [⟨1000, 2000, "c"⟩] 100
      (by decide) (by decide) (by decide)).2 (by decide)⟩

/-- **C9**: `findSegmentIndex` terminates for every track list, segment
list, target timestamp and integer bounds with `0 ≤ start` and
`end < length` of the track list: each recursive call strictly shrinks the
search interval, so fuel equal to the interval size completes the recursion
(`findSegmentIndexF` agrees with the total function), and over the
canonical track list the search always reaches a containment hit or the
`start > end` base case (it produces a value). -/
theorem c9_findSegmentIndex_terminates
    (trackList : List (Int × Nat)) (segments : List MobileAttachment)
    (targetTimestamp : Int) (s e : Int)
    (h0 : 0 ≤ s) (he : e < (trackList.length : Int)) :
    findSegmentIndexF ((e + 1 - s).toNat + 1) trackList segments targetTimestamp s e =
      some (findSegmentIndex trackList segments targetTimestamp s e) ∧
    (trackList = trackListOf segments →
      (findSegmentIndex trackList segments targetTimestamp s e).isSome = true) := by
  refine ⟨fsiF_adequate _ _ _ _ _ _ (by omega), fun htl => ?_⟩
  subst htl
  refine fsi_total_aux segments targetTimestamp s e h0 ?_
  rw [trackListOf_length] at he
  exact he

theorem c9_findSegmentIndex_terminates_witness :
    ((0 : Int) ≤ 0) ∧
    (findSegmentIndexF (((0 : Int) + 1 - 0).toNat + 1) [((0 : Int), (0 : Nat))]
        [⟨10, 0, "u"⟩] 5 0 0 =
      some (findSegmentIndex [((0 : Int), (0 : Nat))] [⟨10, 0, "u"⟩] 5 0 0) ∧
    ([((0 : Int), (0 : Nat))] = trackListOf [⟨10, 0, "u"⟩] →
      (findSegmentIndex [((0 : Int), (0 : Nat))] [⟨10, 0, "u"⟩] 5 0 0).isSome = true)) :=
  ⟨le_refl 0,
    c9_findSegmentIndex_terminates [((0 : Int), (0 : Nat))] [⟨10, 0, "u"⟩] 5 0 0
      (le_refl 0) (by decide)⟩

/-! ### Helper lemmas about state updates -/

lemma modifyVideo_attachments (st : PState) (i : Nat) (f : VideoElem → VideoElem) :
    (modifyVideo st i f).attachments = st.attachments := by
  unfold modifyVideo; split <;> rfl

lemma modifyVideo_currentIndex (st : PState) (i : Nat) (f : VideoElem → VideoElem) :
    (modifyVideo st i f).currentIndex = st.currentIndex := by
  unfold modifyVideo; split <;> rfl

lemma modifyVideo_playbackSpeed (st : PState) (i : Nat) (f : VideoElem → VideoElem) :
    (modifyVideo st i f).playbackSpeed = st.playbackSpeed := by
  unfold modifyVideo; split <;> rfl

lemma modifyVideo_startTimestamp (st : PState) (i : Nat) (f : VideoElem → VideoElem) :
    (modifyVideo st i f).startTimestamp = st.startTimestamp := by
  unfold modifyVideo; split <;> rfl

lemma modifyVideo_timer (st : PState) (i : Nat) (f : VideoElem → VideoElem) :
    (modifyVideo st i f).timer = st.timer := by
  unfold modifyVideo; split <;> rfl

lemma modifyVideo_trackList (st : PState) (i : Nat) (f : VideoElem → VideoElem) :
    (modifyVideo st i f).trackList = st.trackList := by
  unfold modifyVideo; split <;> rfl

lemma modifyVideo_finishedCount (st : PState) (i : Nat) (f : VideoElem → VideoElem) :
    (modifyVideo st i f).finishedCount = st.finishedCount := by
  unfold modifyVideo; split <;> rfl

lemma modifyVideo_videos_length (st : PState) (i : Nat) (f : VideoElem → VideoElem) :
    (modifyVideo st i f).videos.length = st.videos.length := by
  unfold modifyVideo
  split
  · rfl
  · simp [List.length_set]

lemma modifyVideo_getD_self (st : PState) (i : Nat) (f : VideoElem → VideoElem)
    (h : i < st.videos.length) :
    (modifyVideo st i f).videos.getD i dfltVideo = f (st.videos.getD i dfltVideo) := by
  unfold modifyVideo
  rw [get?_eq_getD dfltVideo h]
  simp only []
  apply getD_eq_of_get?
  rw [List.get?_eq_getElem?, List.getElem?_set_self (by simpa using h)]

lemma modifyVideo_getD_ne (st : PState) (i : Nat) (f : VideoElem → VideoElem) (j : Nat)
    (hne : i ≠ j) :
    (modifyVideo st i f).videos.getD j dfltVideo = st.videos.getD j dfltVideo := by
  unfold modifyVideo
  split
  · rfl
  · simp only [List.getD_eq_getElem?_getD, List.getElem?_set_ne hne]

lemma modifyVideo_of_ge (st : PState) (i : Nat) (f : VideoElem → VideoElem)
    (h : st.videos.length ≤ i) : modifyVideo st i f = st := by
  unfold modifyVideo
  rw [List.get?_eq_none.mpr h]

/-- All state fields other than `videos` are preserved by `optModify`, and
the video list keeps its length. -/
lemma optModify_misc (st : PState) (idx : Option Int) (f : VideoElem → VideoElem) :
    (optModify st idx f).attachments = st.attachments ∧
    (optModify st idx f).currentIndex = st.currentIndex ∧
    (optModify st idx f).playbackSpeed = st.playbackSpeed ∧
    (optModify st idx f).startTimestamp = st.startTimestamp ∧
    (optModify st idx f).timer = st.timer ∧
    (optModify st idx f).trackList = st.trackList ∧
    (optModify st idx f).finishedCount = st.finishedCount ∧
    (optModify st idx f).videos.length = st.videos.length := by
  unfold optModify
  cases idx with
  | none => exact ⟨rfl, rfl, rfl, rfl, rfl, rfl, rfl, rfl⟩
  | some i =>
    simp only []
    split <;>
      refine ⟨?_, ?_, ?_, ?_, ?_, ?_, ?_, ?_⟩ <;>
        first
          | rfl
          | exact modifyVideo_attachments ..
          | exact modifyVideo_currentIndex ..
          | exact modifyVideo_playbackSpeed ..
          | exact modifyVideo_startTimestamp ..
          | exact modifyVideo_timer ..
          | exact modifyVideo_trackList ..
          | exact modifyVideo_finishedCount ..
          | exact modifyVideo_videos_length ..

lemma optModify_getD_self (st : PState) (i : Int) (f : VideoElem → VideoElem)
    (h0 : 0 ≤ i) (hl : i.toNat < st.videos.length) :
    (optModify st (some i) f).videos.getD i.toNat dfltVideo =
      f (st.videos.getD i.toNat dfltVideo) := by
  unfold optModify
  simp only []
  rw [if_pos h0, modifyVideo_getD_self _ _ _ hl]

lemma optModify_getD_other (st : PState) (idx : Option Int) (f : VideoElem → VideoElem)
    (j : Nat) (h : ∀ i : Int, idx = some i → 0 ≤ i → i.toNat ≠ j) :
    (optModify st idx f).videos.getD j dfltVideo = st.videos.getD j dfltVideo := by
  unfold optModify
  cases idx with
  | none => rfl
  | some i =>
    simp only []
    by_cases h0 : 0 ≤ i
    · rw [if_pos h0]
      exact modifyVideo_getD_ne _ _ _ _ (h i rfl h0)
    · rw [if_neg h0]

/-- `optModify` leaves every video it does not address untouched, and at the
addressed one applies `f`; consequence: any per-video field `f` preserves is
preserved everywhere. -/
lemma optModify_getD_cases (st : PState) (idx : Option Int) (f : VideoElem → VideoElem)
    (j : Nat) :
    (optModify st idx f).videos.getD j dfltVideo = st.videos.getD j dfltVideo ∨
    (optModify st idx f).videos.getD j dfltVideo = f (st.videos.getD j dfltVideo) := by
  unfold optModify
  cases idx with
  | none => exact Or.inl rfl
  | some i =>
    simp only []
    by_cases h0 : 0 ≤ i
    · rw [if_pos h0]
      rcases eq_or_ne i.toNat j with heq | hne
      · subst heq
        by_cases hl : i.toNat < st.videos.length
        · exact Or.inr (modifyVideo_getD_self _ _ _ hl)
        · rw [modifyVideo_of_ge _ _ _ (by omega)]
          exact Or.inl rfl
      · exact Or.inl (modifyVideo_getD_ne _ _ _ _ hne)
    · rw [if_neg h0]
      exact Or.inl rfl

/-- Summary of `loadSegmentRest` at a valid video index: it returns the
index, commits it as current, shows that video seeked to
`segmentOffsetMs / 1000`, touches no other per-video field, shows no new
video, hides the previously current video, and leaves everything else
(attachments, timer, speed, origin, track list, callbacks) unchanged. -/
lemma loadSegmentRest_desc (st : PState) (index : Nat) (off : Int)
    (hv : index < st.videos.length) :
    (loadSegmentRest index off st).2 = (index : Int) ∧
    (loadSegmentRest index off st).1.currentIndex = some index ∧
    (loadSegmentRest index off st).1.attachments = st.attachments ∧
    (loadSegmentRest index off st).1.playbackSpeed = st.playbackSpeed ∧
    (loadSegmentRest index off st).1.startTimestamp = st.startTimestamp ∧
    (loadSegmentRest index off st).1.timer = st.timer ∧
    (loadSegmentRest index off st).1.trackList = st.trackList ∧
    (loadSegmentRest index off st).1.finishedCount = st.finishedCount ∧
    (loadSegmentRest index off st).1.videos.length = st.videos.length ∧
    ((loadSegmentRest index off st).1.videos.getD index dfltVideo).display = "block" ∧
    ((loadSegmentRest index off st).1.videos.getD index dfltVideo).currentTime =
      (off : Rat) / 1000 ∧
    ((loadSegmentRest index off st).1.videos.getD index dfltVideo).paused =
      (st.videos.getD index dfltVideo).paused ∧
    ((loadSegmentRest index off st).1.videos.getD index dfltVideo).playbackRate =
      (st.videos.getD index dfltVideo).playbackRate ∧
    (∀ j, j ≠ index →
      ((loadSegmentRest index off st).1.videos.getD j dfltVideo).paused =
          (st.videos.getD j dfltVideo).paused ∧
        ((loadSegmentRest index off st).1.videos.getD j dfltVideo).currentTime =
          (st.videos.getD j dfltVideo).currentTime ∧
        ((loadSegmentRest index off st).1.videos.getD j dfltVideo).playbackRate =
          (st.videos.getD j dfltVideo).playbackRate) ∧
    (∀ j, j ≠ index →
      ((loadSegmentRest index off st).1.videos.getD j dfltVideo).display ≠ "none" →
        (st.videos.getD j dfltVideo).display ≠ "none") ∧
    (∀ j, j ≠ index → j < st.videos.length → st.currentIndex = some j →
      ((loadSegmentRest index off st).1.videos.getD j dfltVideo).display = "none") := by
  unfold loadSegmentRest PState.hideVideo
  simp only []
  set st1 := if 0 ≤ (index : Int) - 1 then
      optModify st (some ((index : Int) - 1)) (fun v => { v with display := "none" })
    else st with hst1
  set st2 := optModify st1 (currentIndexInt st1)
      (fun v => { v with display := "none" }) with hst2
  have h1misc : st1.attachments = st.attachments ∧ st1.currentIndex = st.currentIndex ∧
      st1.playbackSpeed = st.playbackSpeed ∧ st1.startTimestamp = st.startTimestamp ∧
      st1.timer = st.timer ∧ st1.trackList = st.trackList ∧
      st1.finishedCount = st.finishedCount ∧ st1.videos.length = st.videos.length := by
    rw [hst1]
    split
    · exact optModify_misc ..
    · exact ⟨rfl, rfl, rfl, rfl, rfl, rfl, rfl, rfl⟩
  have h2misc : st2.attachments = st1.attachments ∧ st2.currentIndex = st1.currentIndex ∧
      st2.playbackSpeed = st1.playbackSpeed ∧ st2.startTimestamp = st1.startTimestamp ∧
      st2.timer = st1.timer ∧ st2.trackList = st1.trackList ∧
      st2.finishedCount = st1.finishedCount ∧ st2.videos.length = st1.videos.length :=
    optModify_misc ..
  have hlen2 : st2.videos.length = st.videos.length := by
    rw [h2misc.2.2.2.2.2.2.2, h1misc.2.2.2.2.2.2.2]
  -- per-video facts through the two hides
  have hf1 : ∀ j, ((st1.videos.getD j dfltVideo).paused = (st.videos.getD j dfltVideo).paused ∧
      (st1.videos.getD j dfltVideo).currentTime = (st.videos.getD j dfltVideo).currentTime ∧
      (st1.videos.getD j dfltVideo).playbackRate =
        (st.videos.getD j dfltVideo).playbackRate) ∧
      ((st1.videos.getD j dfltVideo).display = (st.videos.getD j dfltVideo).display ∨
        (st1.videos.getD j dfltVideo).display = "none") := by
    intro j
    rw [hst1]
    split
    · rcases optModify_getD_cases st (some ((index : Int) - 1))
          (fun v => { v with display := "none" }) j with hc | hc <;> rw [hc]
      · exact ⟨⟨rfl, rfl, rfl⟩, Or.inl rfl⟩
      · exact ⟨⟨rfl, rfl, rfl⟩, Or.inr rfl⟩
    · exact ⟨⟨rfl, rfl, rfl⟩, Or.inl rfl⟩
  have hf2 : ∀ j, ((st2.videos.getD j dfltVideo).paused = (st1.videos.getD j dfltVideo).paused ∧
      (st2.videos.getD j dfltVideo).currentTime =
        (st1.videos.getD j dfltVideo).currentTime ∧
      (st2.videos.getD j dfltVideo).playbackRate =
        (st1.videos.getD j dfltVideo).playbackRate) ∧
      ((st2.videos.getD j dfltVideo).display = (st1.videos.getD j dfltVideo).display ∨
        (st2.videos.getD j dfltVideo).display = "none") := by
    intro j
    rw [hst2]
    rcases optModify_getD_cases st1 (currentIndexInt st1)
        (fun v => { v with display := "none" }) j with hc | hc <;> rw [hc]
    · exact ⟨⟨rfl, rfl, rfl⟩, Or.inl rfl⟩
    · exact ⟨⟨rfl, rfl, rfl⟩, Or.inr rfl⟩
  -- the previously current video is hidden by the second hide
  have hcurhide : ∀ j, j < st.videos.length → st.currentIndex = some j →
      (st2.videos.getD j dfltVideo).display = "none" := by
    intro j hj hcij
    have hci1 : currentIndexInt st1 = some ((j : Nat) : Int) := by
      unfold currentIndexInt
      rw [h1misc.2.1, hcij]
    rw [hst2, hci1]
    have := optModify_getD_self st1 ((j : Nat) : Int)
        (fun v => { v with display := "none" }) (by omega)
        (by rw [Int.toNat_natCast]; omega)
    rw [Int.toNat_natCast] at this
    rw [this]
  have hvl2 : index < st2.videos.length := by omega
  rw [get?_eq_getD dfltVideo hvl2]
  simp only []
  have hset_self : (st2.videos.set index
      { st2.videos.getD index dfltVideo with
          display := "block", currentTime := (off : Rat) / 1000 }).getD index dfltVideo =
      { st2.videos.getD index dfltVideo with
          display := "block", currentTime := (off : Rat) / 1000 } := by
    simp only [List.getD_eq_getElem?_getD, List.getElem?_set_self (by omega : index < st2.videos.length),
      Option.getD_some]
  have hset_other : ∀ j, j ≠ index → (st2.videos.set index
      { st2.videos.getD index dfltVideo with
          display := "block", currentTime := (off : Rat) / 1000 }).getD j dfltVideo =
      st2.videos.getD j dfltVideo := by
    intro j hne
    simp only [List.getD_eq_getElem?_getD, List.getElem?_set_ne (Ne.symm hne)]
  refine ⟨by trivial, by trivial, ?_, ?_, ?_, ?_, ?_, ?_, ?_, ?_, ?_, ?_, ?_, ?_, ?_, ?_⟩
  · exact h2misc.1.trans h1misc.1
  · exact h2misc.2.2.1.trans h1misc.2.2.1
  · exact h2misc.2.2.2.1.trans h1misc.2.2.2.1
  · exact h2misc.2.2.2.2.1.trans h1misc.2.2.2.2.1
  · exact h2misc.2.2.2.2.2.1.trans h1misc.2.2.2.2.2.1
  · exact h2misc.2.2.2.2.2.2.1.trans h1misc.2.2.2.2.2.2.1
  · simp only [List.length_set]
    exact hlen2
  · rw [hset_self]
  · rw [hset_self]
  · rw [hset_self]
    exact ((hf2 index).1.1).trans ((hf1 index).1.1)
  · rw [hset_self]
    exact ((hf2 index).1.2.2).trans ((hf1 index).1.2.2)
  · intro j hne
    rw [hset_other j hne]
    exact ⟨((hf2 j).1.1).trans ((hf1 j).1.1),
      ((hf2 j).1.2.1).trans ((hf1 j).1.2.1),
      ((hf2 j).1.2.2).trans ((hf1 j).1.2.2)⟩
  · intro j hne hshow
    rw [hset_other j hne] at hshow
    rcases (hf2 j).2 with h2 | h2
    · rcases (hf1 j).2 with h1 | h1
      · rw [h2, h1] at hshow
        exact hshow
      · rw [h2, h1] at hshow
        exact absurd rfl hshow
    · rw [h2] at hshow
      exact absurd rfl hshow
  · intro j hne hj hcij
    rw [hset_other j hne]
    exact hcurhide j hj hcij

/-- `loadSegment` at a valid index, timer not yet at the segment's start
offset: registers a wake-up at that offset and suspends, changing nothing
else. -/
lemma loadSegment_valid_wait (st : PState) (index : Nat) (off : Int) (k : Kont)
    (hn : index < st.attachments.length)
    (hw : st.timer.time < segStart st.attachments index - st.startTimestamp) :
    loadSegment (some (index : Int)) off k st =
      ({ st with timer := (st.timer.addNotificationAtTime
          ⟨segStart st.attachments index - st.startTimestamp, index, off, k⟩) },
        LoadOutcome.waiting (segStart st.attachments index - st.startTimestamp)) := by
  have hseg : st.getSegment (some (index : Int)) =
      some (st.attachments.getD index dfltAttachment) := by
    unfold PState.getSegment
    simp only []
    rw [if_pos (by omega), Int.toNat_natCast]
    exact get?_eq_getD dfltAttachment hn
  have hw' : st.timer.time <
      (st.attachments.getD index dfltAttachment).timestamp - st.startTimestamp := hw
  unfold loadSegment
  simp only []
  rw [if_neg (by omega)]
  rw [hseg]
  simp only [Timer.getTime]
  rw [if_pos hw']
  rw [Int.toNat_natCast]
  rfl

/-- `loadSegment` at a valid index, timer already at or past the segment's
start offset: runs the rest of the body synchronously. -/
lemma loadSegment_valid_now (st : PState) (index : Nat) (off : Int) (k : Kont)
    (hn : index < st.attachments.length)
    (hw : segStart st.attachments index - st.startTimestamp ≤ st.timer.time) :
    loadSegment (some (index : Int)) off k st =
      ((loadSegmentRest index off st).1, LoadOutcome.ret (loadSegmentRest index off st).2) := by
  have hseg : st.getSegment (some (index : Int)) =
      some (st.attachments.getD index dfltAttachment) := by
    unfold PState.getSegment
    simp only []
    rw [if_pos (by omega), Int.toNat_natCast]
    exact get?_eq_getD dfltAttachment hn
  unfold loadSegment
  simp only []
  rw [if_neg (by omega)]
  rw [hseg]
  simp only [Timer.getTime]
  rw [if_neg (show
    ¬st.timer.time < (st.attachments.getD index dfltAttachment).timestamp - st.startTimestamp
    from not_lt.mpr hw)]
  rw [Int.toNat_natCast]

/-! ### Example states used in concrete witnesses and counterexamples -/

/-- Two recorded segments with a 500 ms recording gap (1000–1500) between
them. -/
def exAtts : List MobileAttachment := [⟨1000, 0, "a"⟩, ⟨1000, 1500, "b"⟩]

/-- A player over `exAtts` mid-playback: segment 0 has just ended (virtual
timer at 1000 ms, running), its handle still shown and current. -/
def exStGap : PState :=
  { attachments := exAtts
    currentIndex := some 0
    playbackSpeed := 1
    startTimestamp := 0
    timer := ⟨1000, true, []⟩
    trackList := trackListOf exAtts
    videos := [⟨"a", "block", 1, 1, true⟩, ⟨"b", "none", 0, 1, true⟩]
    finishedCount := 0 }

/-- A freshly constructed player whose single segment starts 1000 ms after
the replay origin, so that offset 0 resolves to a timestamp preceding the
first segment's start. -/
def exStLate : PState :=
  { attachments := [⟨500, 1000, "u"⟩]
    currentIndex := none
    playbackSpeed := 1
    startTimestamp := 0
    timer := ⟨0, false, []⟩
    trackList := trackListOf [⟨500, 1000, "u"⟩]
    videos := [createVideo ⟨500, 1000, "u"⟩ 1]
    finishedCount := 0 }

/-! ### Claim theorems about the player operations -/

/-- **C6**: `loadSegment` called with an undefined, negative, or
out-of-range index returns the sentinel `-1` and is a no-op: the state —
every handle's visibility and seek position, the active segment index, and
the virtual timer — is returned unchanged. -/
theorem c6_loadSegment_invalid_index_noop (st : PState) (segmentOffsetMs : Int) (k : Kont) :
    loadSegment none segmentOffsetMs k st = (st, LoadOutcome.ret (-1)) ∧
    (∀ i : Int, i < 0 → loadSegment (some i) segmentOffsetMs k st = (st, LoadOutcome.ret (-1))) ∧
    (∀ i : Int, (st.attachments.length : Int) ≤ i →
      loadSegment (some i) segmentOffsetMs k st = (st, LoadOutcome.ret (-1))) := by
  refine ⟨rfl, fun i hi => ?_, fun i hi => ?_⟩ <;>
    (simp only [loadSegment]; rw [if_pos (by omega)])

theorem c6_loadSegment_invalid_index_noop_witness :
    loadSegment (some (-5)) 0 Kont.done exStGap = (exStGap, LoadOutcome.ret (-1)) ∧
    loadSegment (some 2) 0 Kont.done exStGap = (exStGap, LoadOutcome.ret (-1)) ∧
    loadSegment none 0 Kont.done exStGap = (exStGap, LoadOutcome.ret (-1)) :=
  ⟨(c6_loadSegment_invalid_index_noop exStGap 0 Kont.done).2.1 (-5) (by decide),
    (c6_loadSegment_invalid_index_noop exStGap 0 Kont.done).2.2 2 (by decide),
    (c6_loadSegment_invalid_index_noop exStGap 0 Kont.done).1⟩

/-- **C7**: `setConfig {speed := some s}` stores `s` as the playback-speed
multiplier and sets the currently shown handle's decode rate to `s`, and
changes nothing else: the virtual timer, every handle's seek position and
visibility and paused flag, other handles' rates, and the active segment
index are unchanged; `setConfig none` changes nothing at all. -/
theorem c7_setConfig_sets_speed_only (st : PState) (s : Rat) :
    setConfig none st = st ∧
    (setConfig (some s) st).playbackSpeed = s ∧
    (setConfig (some s) st).timer = st.timer ∧
    (setConfig (some s) st).currentIndex = st.currentIndex ∧
    (setConfig (some s) st).attachments = st.attachments ∧
    (setConfig (some s) st).videos.length = st.videos.length ∧
    (∀ j, j < st.videos.length →
      ((setConfig (some s) st).videos.getD j dfltVideo).display =
          (st.videos.getD j dfltVideo).display ∧
        ((setConfig (some s) st).videos.getD j dfltVideo).currentTime =
          (st.videos.getD j dfltVideo).currentTime ∧
        ((setConfig (some s) st).videos.getD j dfltVideo).paused =
          (st.videos.getD j dfltVideo).paused) ∧
    (∀ i, st.currentIndex = some i → i < st.videos.length →
      ((setConfig (some s) st).videos.getD i dfltVideo).playbackRate = s) ∧
    (∀ j, j < st.videos.length → st.currentIndex ≠ some j →
      ((setConfig (some s) st).videos.getD j dfltVideo).playbackRate =
        (st.videos.getD j dfltVideo).playbackRate) := by
  have hnone : setConfig none st = st := rfl
  cases hci : st.currentIndex with
  | none =>
    have heq : setConfig (some s) st = { st with playbackSpeed := s } := by
      unfold setConfig PState.setRateAt optModify currentIndexInt
      rw [hci]
    rw [heq]
    refine ⟨hnone, rfl, rfl, hci, rfl, rfl, fun j _ => ⟨rfl, rfl, rfl⟩, ?_, fun j _ _ => rfl⟩
    intro i hi _
    exact Option.noConfusion hi
  | some i =>
    have heq : setConfig (some s) st =
        modifyVideo { st with playbackSpeed := s } i
          (fun v => { v with playbackRate := s }) := by
      unfold setConfig PState.setRateAt optModify currentIndexInt
      rw [hci]
      simp only []
      rw [if_pos (by omega), Int.toNat_natCast]
    rw [heq]
    refine ⟨hnone, ?_, ?_, ?_, ?_, ?_, ?_, ?_, ?_⟩
    · rw [modifyVideo_playbackSpeed]
    · rw [modifyVideo_timer]
    · rw [modifyVideo_currentIndex]
      exact hci
    · rw [modifyVideo_attachments]
    · rw [modifyVideo_videos_length]
    · intro j hj
      rcases eq_or_ne i j with rfl | hne
      · rw [modifyVideo_getD_self _ _ _ (by simpa using hj)]
        exact ⟨rfl, rfl, rfl⟩
      · rw [modifyVideo_getD_ne _ _ _ _ hne]
        exact ⟨rfl, rfl, rfl⟩
    · intro i' hi' hlen
      obtain rfl : i = i' := by injection hi'
      rw [modifyVideo_getD_self _ _ _ (by simpa using hlen)]
    · intro j hj hne
      rw [modifyVideo_getD_ne _ _ _ _ (fun h => hne (by rw [h]))]

theorem c7_setConfig_sets_speed_only_witness :
    ((setConfig (some 2) exStGap).playbackSpeed = 2 ∧
      (setConfig (some 2) exStGap).timer = exStGap.timer) ∧
    ((setConfig (some 2) exStGap).videos.getD 0 dfltVideo).playbackRate = 2 :=
  ⟨⟨(c7_setConfig_sets_speed_only exStGap 2).2.1,
      (c7_setConfig_sets_speed_only exStGap 2).2.2.1⟩,
    (c7_setConfig_sets_speed_only exStGap 2).2.2.2.2.2.2.2.1 0 (by decide) (by decide)⟩

/-- Whenever the lookup resolves to an in-range index `r`, the record
returned by `getSegmentIndexForTime` holds `r` in `segment` exactly when
the target timestamp is contained in segment `r`, and in
`previousSegment` otherwise. -/
lemma gsift_desc
    (st : PState) (relativeOffsetMs : Int) (r : Int)
    (hfsi : findSegmentIndex st.trackList st.attachments (st.startTimestamp + relativeOffsetMs)
        0 ((st.trackList.length : Int) - 1) = some r)
    (hr0 : 0 ≤ r) (hrn : r.toNat < st.attachments.length) :
    ∃ res, getSegmentIndexForTime relativeOffsetMs st = some res ∧
      res.segment.isSome = !res.previousSegment.isSome ∧
      ((st.startTimestamp + relativeOffsetMs ≥
          (st.attachments.getD r.toNat dfltAttachment).timestamp ∧
        st.startTimestamp + relativeOffsetMs ≤
          (st.attachments.getD r.toNat dfltAttachment).timestamp +
            (st.attachments.getD r.toNat dfltAttachment).duration) →
        res = ⟨none, some r⟩) ∧
      (¬(st.startTimestamp + relativeOffsetMs ≥
          (st.attachments.getD r.toNat dfltAttachment).timestamp ∧
        st.startTimestamp + relativeOffsetMs ≤
          (st.attachments.getD r.toNat dfltAttachment).timestamp +
            (st.attachments.getD r.toNat dfltAttachment).duration) →
        res = ⟨some r, none⟩) := by
  have hget : st.getSegment (some r) = some (st.attachments.getD r.toNat dfltAttachment) := by
    unfold PState.getSegment
    simp only []
    rw [if_pos hr0]
    exact get?_eq_getD dfltAttachment hrn
  by_cases hc : st.startTimestamp + relativeOffsetMs ≥
      (st.attachments.getD r.toNat dfltAttachment).timestamp ∧
    st.startTimestamp + relativeOffsetMs ≤
      (st.attachments.getD r.toNat dfltAttachment).timestamp +
        (st.attachments.getD r.toNat dfltAttachment).duration
  · refine ⟨⟨none, some r⟩, ?_, rfl, fun _ => rfl, fun h => absurd hc h⟩
    unfold getSegmentIndexForTime
    simp only []
    rw [hfsi]
    simp only []
    rw [hget]
    simp only []
    rw [if_pos hc]
  · refine ⟨⟨some r, none⟩, ?_, rfl, fun h => absurd h hc, fun _ => rfl⟩
    unfold getSegmentIndexForTime
    simp only []
    rw [hfsi]
    simp only []
    rw [hget]
    simp only []
    rw [if_neg hc]

/-- **C10**: whenever the lookup resolves to an in-range index `r`,
`getSegmentIndexForTime` returns a record in which exactly one of
`segment` and `previousSegment` is defined: `segment` holds `r` when the
absolute timestamp lies in that segment's `[timestamp, timestamp+duration]`
interval, and `previousSegment` holds `r` otherwise — never both defined
and never neither. -/
theorem c10_lookup_result_exactly_one_field
    (st : PState) (relativeOffsetMs : Int) (r : Int)
    (hfsi : findSegmentIndex st.trackList st.attachments (st.startTimestamp + relativeOffsetMs)
        0 ((st.trackList.length : Int) - 1) = some r)
    (hr0 : 0 ≤ r) (hrn : r.toNat < st.attachments.length) :
    ∃ res, getSegmentIndexForTime relativeOffsetMs st = some res ∧
      res.segment.isSome = !res.previousSegment.isSome ∧
      ((st.startTimestamp + relativeOffsetMs ≥
          (st.attachments.getD r.toNat dfltAttachment).timestamp ∧
        st.startTimestamp + relativeOffsetMs ≤
          (st.attachments.getD r.toNat dfltAttachment).timestamp +
            (st.attachments.getD r.toNat dfltAttachment).duration) →
        res = ⟨none, some r⟩) ∧
      (¬(st.startTimestamp + relativeOffsetMs ≥
          (st.attachments.getD r.toNat dfltAttachment).timestamp ∧
        st.startTimestamp + relativeOffsetMs ≤
          (st.attachments.getD r.toNat dfltAttachment).timestamp +
            (st.attachments.getD r.toNat dfltAttachment).duration) →
        res = ⟨some r, none⟩) :=
  gsift_desc st relativeOffsetMs r hfsi hr0 hrn

theorem c10_lookup_result_exactly_one_field_witness :
    ∃ res, getSegmentIndexForTime 500 exStGap = some res ∧
      res.segment.isSome = !res.previousSegment.isSome ∧
      ((exStGap.startTimestamp + 500 ≥
          (exStGap.attachments.getD (0 : Int).toNat dfltAttachment).timestamp ∧
        exStGap.startTimestamp + 500 ≤
          (exStGap.attachments.getD (0 : Int).toNat dfltAttachment).timestamp +
            (exStGap.attachments.getD (0 : Int).toNat dfltAttachment).duration) →
        res = ⟨none, some 0⟩) ∧
      (¬(exStGap.startTimestamp + 500 ≥
          (exStGap.attachments.getD (0 : Int).toNat dfltAttachment).timestamp ∧
        exStGap.startTimestamp + 500 ≤
          (exStGap.attachments.getD (0 : Int).toNat dfltAttachment).timestamp +
            (exStGap.attachments.getD (0 : Int).toNat dfltAttachment).duration) →
        res = ⟨some 0, none⟩) :=
  c10_lookup_result_exactly_one_field exStGap 500 0
    (by simp [findSegmentIndex, exStGap, exAtts, trackListOf]) (by decide) (by decide)

/-- The tail of `loadSegmentAtTime` never raises: its only outcomes are
`retUndef`, `ret` or `waiting`. -/
lemma lsatTail_not_crashed (videoOffsetMs : Int) (next : Option Int) (withPlay : Bool)
    (st : PState) : (lsatTail videoOffsetMs next withPlay st).2 ≠ LSATOut.crashed := by
  unfold lsatTail
  split
  · simp
  · split <;> (simp only []; split <;> simp)

/-- **C5** counterexample: with one segment starting 1000 ms after the
replay origin, offset 0 resolves to a timestamp preceding the first
segment's start, the lookup returns `-1`, and the segment dereference after
the lookup in `getSegmentIndexForTime` reads the missing element at index
`-1` (a TypeError, modelled as `none`) — refuting that the dereference
never accesses a missing list element. -/
theorem c5_missing_element_counterexample :
    findSegmentIndex exStLate.trackList exStLate.attachments (exStLate.startTimestamp + 0)
        0 ((exStLate.trackList.length : Int) - 1) = some (-1) ∧
    exStLate.getSegment (some (-1)) = none ∧
    getSegmentIndexForTime 0 exStLate = none := by
  refine ⟨?_, rfl, ?_⟩ <;>
    simp [getSegmentIndexForTime, findSegmentIndex, exStLate, trackListOf, PState.getSegment]

/-- **C5** (amended): for every offset whose resolved timestamp is at or
after the first segment's start (segments nonempty, nonnegative durations,
canonical track list), the lookup resolves to an in-range index, the
dereference in `getSegmentIndexForTime` reads an existing element, and the
load path completes without the TypeError outcome; offsets resolving
before the first segment's start instead make that dereference read the
missing element at index `-1`, surfacing as a rejected promise in the
asynchronous load path rather than a synchronous exception out of `play`
or `pause`. -/
theorem c5_lookup_dereference_in_range
    (st : PState) (videoOffsetMs : Int) (withPlay : Bool)
    (htl : st.trackList = trackListOf st.attachments)
    (hd : DurNonneg st.attachments)
    (hn : 0 < st.attachments.length)
    (hts : segStart st.attachments 0 ≤ st.startTimestamp + videoOffsetMs) :
    (getSegmentIndexForTime videoOffsetMs st).isSome = true ∧
    (loadSegmentAtTime videoOffsetMs withPlay st).2 ≠ LSATOut.crashed := by
  obtain ⟨r, hr, hr0, hrn⟩ :=
    fsi_inrange_aux st.attachments (st.startTimestamp + videoOffsetMs) hd hts
      0 ((st.attachments.length : Int) - 1) (le_refl 0) (by omega) (by omega)
  have hfsi : findSegmentIndex st.trackList st.attachments
      (st.startTimestamp + videoOffsetMs) 0 ((st.trackList.length : Int) - 1) = some r := by
    rw [htl, trackListOf_length]
    exact hr
  have hget : st.getSegment (some r) = some (st.attachments.getD r.toNat dfltAttachment) := by
    unfold PState.getSegment
    simp only []
    rw [if_pos hr0]
    exact get?_eq_getD dfltAttachment (by omega)
  obtain ⟨res, hres, hone, hcy, hcn⟩ :=
    gsift_desc st videoOffsetMs r hfsi hr0 (by omega)
  constructor
  · rw [hres]; rfl
  · unfold loadSegmentAtTime
    rw [hres]
    simp only []
    by_cases hc : st.startTimestamp + videoOffsetMs ≥
        (st.attachments.getD r.toNat dfltAttachment).timestamp ∧
      st.startTimestamp + videoOffsetMs ≤
        (st.attachments.getD r.toNat dfltAttachment).timestamp +
          (st.attachments.getD r.toNat dfltAttachment).duration
    · rw [hcy hc]
      simp only []
      exact lsatTail_not_crashed _ _ _ _
    · rw [hcn hc]
      simp only []
      rw [hget]
      simp only []
      split
      · simp
      · exact lsatTail_not_crashed _ _ _ _

theorem c5_lookup_dereference_in_range_witness :
    (getSegmentIndexForTime 500 exStGap).isSome = true ∧
    (loadSegmentAtTime 500 false exStGap).2 ≠ LSATOut.crashed :=
  c5_lookup_dereference_in_range exStGap 500 false rfl (by decide) (by decide) (by decide)

/-- **C3** counterexample: after segment 0 ends at elapsed 1000 ms with
segment 1 starting at 1500 ms, the segment-end callback does *not* begin
playback of segment 1 immediately: `loadSegment` registers a virtual-timer
notification at 1500 (a gap wait) and suspends, leaving segment 1's handle
hidden and not playing. -/
theorem c3_segment_end_gap_counterexample :
    (handleSegmentEnd 0 exStGap).timer.notifications =
      [⟨1500, 1, 0, Kont.thenPlay⟩] ∧
    ((handleSegmentEnd 0 exStGap).videos.getD 1 dfltVideo).paused = true ∧
    ((handleSegmentEnd 0 exStGap).videos.getD 1 dfltVideo).display = "none" ∧
    (handleSegmentEnd 0 exStGap).currentIndex = some 0 := by
  refine ⟨?_, ?_, ?_, ?_⟩ <;>
    simp [handleSegmentEnd, exStGap, exAtts, playSegmentAtIndex, loadSegment,
      PState.getSegment, Timer.getTime, Timer.addNotificationAtTime, dfltVideo]

/-- **C3** (amended): when a segment handle at `index` reports completion,
the player advances to `index + 1`.  If `index + 1` is out of range it
stops the virtual timer and invokes `onFinished` (terminal state).
Otherwise it initiates playback of segment `index + 1` at intra-segment
offset 0: if the virtual timer has already reached that segment's start
offset, the segment is shown, seeked to 0 and played immediately;
otherwise the load first waits on a virtual-timer notification registered
at that start offset (gap wait), deferring the show/play until it fires. -/
theorem c3_segment_end_advances (st : PState) (index : Nat)
    (hlen : st.videos.length = st.attachments.length) :
    (st.attachments.length ≤ index + 1 →
      handleSegmentEnd index st =
        { st with timer := st.timer.stop none, finishedCount := st.finishedCount + 1 }) ∧
    (index + 1 < st.attachments.length →
      segStart st.attachments (index + 1) - st.startTimestamp ≤ st.timer.time →
      (handleSegmentEnd index st).currentIndex = some (index + 1) ∧
        ((handleSegmentEnd index st).videos.getD (index + 1) dfltVideo).display = "block" ∧
        ((handleSegmentEnd index st).videos.getD (index + 1) dfltVideo).currentTime = 0 ∧
        ((handleSegmentEnd index st).videos.getD (index + 1) dfltVideo).paused = false ∧
        ((handleSegmentEnd index st).videos.getD (index + 1) dfltVideo).playbackRate =
          st.playbackSpeed ∧
        (handleSegmentEnd index st).timer = st.timer) ∧
    (index + 1 < st.attachments.length →
      st.timer.time < segStart st.attachments (index + 1) - st.startTimestamp →
      handleSegmentEnd index st =
        { st with timer := (st.timer.addNotificationAtTime
            ⟨segStart st.attachments (index + 1) - st.startTimestamp, index + 1, 0,
              Kont.thenPlay⟩) }) := by
  refine ⟨fun hend => ?_, fun hin hnow => ?_, fun hin hgap => ?_⟩
  · unfold handleSegmentEnd
    simp only []
    rw [if_pos hend]
  · have hv : index + 1 < st.videos.length := by omega
    obtain ⟨hr2, hci, _, hps, _, htm, _, _, hvl, hdisp, hct, _, _, _, _, _⟩ :=
      loadSegmentRest_desc st (index + 1) 0 hv
    have hmain : handleSegmentEnd index st =
        (loadSegmentRest (index + 1) 0 st).1.playVideoAt (some ((index + 1 : Nat) : Int)) := by
      unfold handleSegmentEnd
      simp only []
      rw [if_neg (by omega)]
      unfold playSegmentAtIndex
      rw [loadSegment_valid_now st (index + 1) 0 Kont.thenPlay hin hnow]
      simp only []
      rw [hr2]
    rw [hmain]
    unfold PState.playVideoAt
    set L := (loadSegmentRest (index + 1) 0 st).1 with hL
    have hmisc := optModify_misc L (some ((index + 1 : Nat) : Int))
      (fun v => { v with playbackRate := L.playbackSpeed, paused := false })
    have hself := optModify_getD_self L ((index + 1 : Nat) : Int)
      (fun v => { v with playbackRate := L.playbackSpeed, paused := false })
      (by omega) (by rw [Int.toNat_natCast]; omega)
    rw [Int.toNat_natCast] at hself
    refine ⟨hmisc.2.1.trans hci, ?_, ?_, ?_, ?_, hmisc.2.2.2.2.1.trans htm⟩
    · rw [hself]
      show (L.videos.getD (index + 1) dfltVideo).display = "block"
      exact hdisp
    · rw [hself]
      show (L.videos.getD (index + 1) dfltVideo).currentTime = 0
      rw [hct]
      norm_num
    · rw [hself]
    · rw [hself]
      show L.playbackSpeed = st.playbackSpeed
      exact hps
  · unfold handleSegmentEnd
    simp only []
    rw [if_neg (by omega)]
    unfold playSegmentAtIndex
    rw [loadSegment_valid_wait st (index + 1) 0 Kont.thenPlay hin hgap]

theorem c3_segment_end_advances_witness :
    handleSegmentEnd 0 exStGap =
      { exStGap with timer := (exStGap.timer.addNotificationAtTime
          ⟨segStart exStGap.attachments 1 - exStGap.startTimestamp, 1, 0, Kont.thenPlay⟩) } :=
  (c3_segment_end_advances exStGap 0 (by decide)).2.2 (by decide) (by decide)

/-- **C4**: after `pause(offsetMs)` at an offset inside the gap between
segment `i` and `i+1` while segment `i` is current, the shown handle is
paused, the virtual timer is frozen at `offsetMs` (so `getCurrentTime`
returns `offsetMs`), playback is not resumed, and the displayed handle is
re-resolved for `offsetMs`: segment `i`'s handle stays displayed with its
seek position set to its full duration (its last frame) while every other
handle — in particular segment `i+1`'s — is hidden; the load of segment
`i+1` is merely registered as a pending timer notification. -/
theorem c4_pause_in_gap (st : PState) (offsetMs : Int) (i : Nat)
    (htl : st.trackList = trackListOf st.attachments)
    (hlen : st.videos.length = st.attachments.length)
    (hd : DurNonneg st.attachments) (hsep : NonOverlapping st.attachments)
    (hi1 : i + 1 < st.attachments.length)
    (hci : st.currentIndex = some i)
    (hInv : Inv st)
    (hg1 : segStart st.attachments i + segDur st.attachments i < st.startTimestamp + offsetMs)
    (hg2 : st.startTimestamp + offsetMs < segStart st.attachments (i + 1)) :
    (pause offsetMs st).timer.running = false ∧
    (pause offsetMs st).timer.time = offsetMs ∧
    getCurrentTime (pause offsetMs st) = offsetMs ∧
    (pause offsetMs st).currentIndex = some i ∧
    ((pause offsetMs st).videos.getD i dfltVideo).display = "block" ∧
    ((pause offsetMs st).videos.getD i dfltVideo).currentTime =
      (segDur st.attachments i : Rat) / 1000 ∧
    ((pause offsetMs st).videos.getD i dfltVideo).paused = true ∧
    (∀ j, j < (pause offsetMs st).videos.length → j ≠ i →
      ((pause offsetMs st).videos.getD j dfltVideo).display = "none") ∧
    (pause offsetMs st).timer.notifications =
      st.timer.notifications ++
        [⟨segStart st.attachments (i + 1) - st.startTimestamp, i + 1,
          (st.startTimestamp + offsetMs) - segStart st.attachments (i + 1), Kont.done⟩] := by
  have hn : i < st.attachments.length := by omega
  have hnv : i < st.videos.length := by omega
  -- step 1: the current video is paused
  have hpv : st.pauseVideoAt (currentIndexInt st) =
      optModify st (some ((i : Nat) : Int)) (fun v => { v with paused := true }) := by
    unfold PState.pauseVideoAt currentIndexInt
    rw [hci]
  set st1 := optModify st (some ((i : Nat) : Int)) (fun v => { v with paused := true })
    with hst1
  have h1misc := optModify_misc st (some ((i : Nat) : Int))
    (fun v => { v with paused := true })
  -- step 2: the timer is frozen
  set st2 := { st1 with timer := st1.timer.stop (some offsetMs) } with hst2
  have hpause1 : pause offsetMs st = (loadSegmentAtTime offsetMs false st2).1 := by
    unfold pause
    rw [hpv]
  have h2att : st2.attachments = st.attachments := h1misc.1
  have h2ci : st2.currentIndex = st.currentIndex := h1misc.2.1
  have h2ps : st2.playbackSpeed = st.playbackSpeed := h1misc.2.2.1
  have h2ts : st2.startTimestamp = st.startTimestamp := h1misc.2.2.2.1
  have h2tl : st2.trackList = st.trackList := h1misc.2.2.2.2.2.1
  have h2vl : st2.videos.length = st.videos.length := h1misc.2.2.2.2.2.2.2
  have h2time : st2.timer.time = offsetMs := rfl
  have h2run : st2.timer.running = false := rfl
  have h2nt : st2.timer.notifications = st.timer.notifications := by
    show st1.timer.notifications = st.timer.notifications
    rw [h1misc.2.2.2.2.1]
  -- the target is contained in no segment
  have hnc : ∀ j, j < st.attachments.length →
      ¬(segStart st.attachments j ≤ st.startTimestamp + offsetMs ∧
        st.startTimestamp + offsetMs ≤
          segStart st.attachments j + segDur st.attachments j) := by
    intro j hj
    rcases Nat.lt_trichotomy j i with h | h | h
    · have hend := segEnd_le_segStart hd hsep h hn
      have hdi := hd i hn
      intro hc
      omega
    · subst h
      intro hc
      omega
    · have hmono := segStart_mono hd hsep (show i + 1 ≤ j by omega) hj
      intro hc
      omega
  -- the lookup resolves to previousSegment = i
  have hfsi0 : findSegmentIndex (trackListOf st.attachments) st.attachments
      (st.startTimestamp + offsetMs) 0 ((st.attachments.length : Int) - 1) = some (i : Int) := by
    refine fsi_pred_at st.attachments (st.startTimestamp + offsetMs) hd hsep hnc i hn ?_ ?_
    · have := hd i hn
      omega
    · intro _
      exact hg2
  have hgs : getSegmentIndexForTime offsetMs st2 = some ⟨some (i : Int), none⟩ := by
    unfold getSegmentIndexForTime
    simp only []
    rw [h2tl, htl, h2att, h2ts, trackListOf_length, hfsi0]
    simp only []
    have hget2 : st2.getSegment (some (i : Int)) =
        some (st.attachments.getD i dfltAttachment) := by
      unfold PState.getSegment
      simp only []
      rw [if_pos (by omega), Int.toNat_natCast, h2att]
      exact get?_eq_getD dfltAttachment hn
    rw [hget2]
    simp only []
    rw [if_neg (by
      have := hnc i hn
      intro hc
      exact this ⟨hc.1, hc.2⟩)]
  -- the previous segment is loaded at its full duration, synchronously
  have hget2' : st2.getSegment (some (i : Int)) =
      some (st.attachments.getD i dfltAttachment) := by
    unfold PState.getSegment
    simp only []
    rw [if_pos (by omega), Int.toNat_natCast, h2att]
    exact get?_eq_getD dfltAttachment hn
  set dur : Int := (st.attachments.getD i dfltAttachment).duration with hdur
  have hv2 : i < st2.videos.length := by omega
  obtain ⟨hr2, hci3, hatt3, hps3, hts3, htm3, htl3, hfc3, hvl3, hdisp3, hct3, hpau3, hrate3,
    hoth3, hshr3, hcur3⟩ := loadSegmentRest_desc st2 i dur hv2
  set st3 := (loadSegmentRest i dur st2).1 with hst3
  have hload1 : loadSegment (some ((i : Nat) : Int)) dur
      (Kont.lsatRest offsetMs i false) st2 =
      (st3, LoadOutcome.ret (loadSegmentRest i dur st2).2) := by
    refine loadSegment_valid_now st2 i dur (Kont.lsatRest offsetMs i false)
      (by rw [h2att]; omega) ?_
    have hsseq : segStart st2.attachments i = segStart st.attachments i := by
      rw [h2att]
    have hddur := hd i hn
    rw [hsseq, h2ts, h2time]
    omega
  -- the next segment's load is deferred on a timer notification
  have hget3 : st3.getSegment (some ((i : Int) + 1)) =
      some (st.attachments.getD (i + 1) dfltAttachment) := by
    unfold PState.getSegment
    simp only []
    rw [if_pos (by omega)]
    have ht : ((i : Int) + 1).toNat = i + 1 := by omega
    rw [ht, hatt3, h2att]
    exact get?_eq_getD dfltAttachment hi1
  have hcast : (i : Int) + 1 = ((i + 1 : Nat) : Int) := by omega
  have hwait : loadSegment (some ((i + 1 : Nat) : Int))
      ((st3.startTimestamp + offsetMs) - (st.attachments.getD (i + 1) dfltAttachment).timestamp)
      Kont.done st3 =
      ({ st3 with timer := (st3.timer.addNotificationAtTime
          ⟨segStart st3.attachments (i + 1) - st3.startTimestamp, i + 1,
            (st3.startTimestamp + offsetMs) -
              (st.attachments.getD (i + 1) dfltAttachment).timestamp, Kont.done⟩) },
        LoadOutcome.waiting (segStart st3.attachments (i + 1) - st3.startTimestamp)) := by
    refine loadSegment_valid_wait st3 (i + 1) _ Kont.done (by rw [hatt3, h2att]; omega) ?_
    have hsseq : segStart st3.attachments (i + 1) = segStart st.attachments (i + 1) := by
      rw [hatt3, h2att]
    have htime3 : st3.timer.time = offsetMs := by
      rw [htm3, h2time]
    rw [hsseq, hts3, h2ts, htime3]
    omega
  have hlsat : (loadSegmentAtTime offsetMs false st2).1 =
      { st3 with timer := (st3.timer.addNotificationAtTime
          ⟨segStart st3.attachments (i + 1) - st3.startTimestamp, i + 1,
            (st3.startTimestamp + offsetMs) -
              (st.attachments.getD (i + 1) dfltAttachment).timestamp, Kont.done⟩) } := by
    unfold loadSegmentAtTime
    rw [hgs]
    simp only []
    rw [hget2']
    simp only []
    rw [Int.toNat_natCast, hload1]
    simp only []
    unfold lsatTail
    simp only [Bool.false_eq_true, if_false]
    rw [hcast]
    rw [hcast] at hget3
    rw [hget3]
    simp only []
    rw [hwait]
  have hmain : pause offsetMs st =
      { st3 with timer := (st3.timer.addNotificationAtTime
          ⟨segStart st3.attachments (i + 1) - st3.startTimestamp, i + 1,
            (st3.startTimestamp + offsetMs) -
              (st.attachments.getD (i + 1) dfltAttachment).timestamp, Kont.done⟩) } := by
    rw [hpause1, hlsat]
  rw [hmain]
  have hpau2 : (st2.videos.getD i dfltVideo).paused = true := by
    show (st1.videos.getD i dfltVideo).paused = true
    have := optModify_getD_self st ((i : Nat) : Int)
      (fun v => { v with paused := true }) (by omega) (by rw [Int.toNat_natCast]; omega)
    rw [Int.toNat_natCast] at this
    rw [hst1, this]
  have hdisp2 : ∀ j, (st2.videos.getD j dfltVideo).display =
      (st.videos.getD j dfltVideo).display := by
    intro j
    show (st1.videos.getD j dfltVideo).display = (st.videos.getD j dfltVideo).display
    rw [hst1]
    rcases optModify_getD_cases st (some ((i : Nat) : Int))
        (fun v => { v with paused := true }) j with hc | hc <;> rw [hc]
  set st4 : PState := { st3 with timer := (st3.timer.addNotificationAtTime
      ⟨segStart st3.attachments (i + 1) - st3.startTimestamp, i + 1,
        (st3.startTimestamp + offsetMs) -
          (st.attachments.getD (i + 1) dfltAttachment).timestamp, Kont.done⟩) } with hst4
  have hci4 : st4.currentIndex = some i := hci3
  have htime4 : st4.timer.time = offsetMs := by
    show st3.timer.time = offsetMs
    rw [htm3, h2time]
  refine ⟨?_, htime4, ?_, hci4, ?_, ?_, ?_, ?_, ?_⟩
  · show st3.timer.running = false
    rw [htm3]
    exact h2run
  · unfold getCurrentTime
    rw [hci4]
    exact htime4
  · exact hdisp3
  · rw [show st4.videos = st3.videos from rfl, hct3, hdur]
    show ((st.attachments.getD i dfltAttachment).duration : Rat) / 1000 =
      ((segDur st.attachments i : Int) : Rat) / 1000
    rfl
  · show (st3.videos.getD i dfltVideo).paused = true
    rw [hpau3]
    exact hpau2
  · intro j hj hne
    by_contra hshow
    have hshow' : (st3.videos.getD j dfltVideo).display ≠ "none" := hshow
    have h1 := hshr3 j hne hshow'
    rw [hdisp2 j] at h1
    have hjlen : j < st.videos.length := by
      have hl4 : st4.videos.length = st.videos.length := by
        show st3.videos.length = st.videos.length
        rw [hvl3, h2vl]
      rw [hl4] at hj
      exact hj
    have := hInv j hjlen h1
    rw [hci] at this
    exact hne (Option.some.inj this).symm
  · show st3.timer.notifications ++ [_] = _
    rw [htm3, h2nt, hatt3, h2att, hts3, h2ts]
    rfl

theorem c4_pause_in_gap_witness :
    (pause 1200 exStGap).timer.running = false ∧
    (pause 1200 exStGap).timer.time = 1200 ∧
    getCurrentTime (pause 1200 exStGap) = 1200 ∧
    (pause 1200 exStGap).currentIndex = some 0 ∧
    ((pause 1200 exStGap).videos.getD 0 dfltVideo).display = "block" ∧
    ((pause 1200 exStGap).videos.getD 0 dfltVideo).currentTime =
      (segDur exStGap.attachments 0 : Rat) / 1000 ∧
    ((pause 1200 exStGap).videos.getD 0 dfltVideo).paused = true ∧
    (∀ j, j < (pause 1200 exStGap).videos.length → j ≠ 0 →
      ((pause 1200 exStGap).videos.getD j dfltVideo).display = "none") ∧
    (pause 1200 exStGap).timer.notifications =
      exStGap.timer.notifications ++
        [⟨segStart exStGap.attachments 1 - exStGap.startTimestamp, 1,
          (exStGap.startTimestamp + 1200) - segStart exStGap.attachments 1, Kont.done⟩] :=
  c4_pause_in_gap exStGap 1200 0 rfl (by decide) (by decide) (by decide) (by decide)
    (by decide) (by decide) (by decide) (by decide)

/-! ### Preservation of the shown-handle invariant -/

lemma Inv_set_timer (st : PState) (x : Timer) (h : Inv st) :
    Inv { st with timer := x } :=
  fun j hj hd => h j hj hd

lemma Inv_optModify (st : PState) (idx : Option Int) (f : VideoElem → VideoElem)
    (hdf : ∀ v : VideoElem, (f v).display = v.display ∨ (f v).display = "none")
    (h : Inv st) : Inv (optModify st idx f) := by
  intro j hj hdisp
  have hlen := (optModify_misc st idx f).2.2.2.2.2.2.2
  have hci := (optModify_misc st idx f).2.1
  rw [hci]
  rcases optModify_getD_cases st idx f j with hc | hc
  · rw [hc] at hdisp
    exact h j (by omega) hdisp
  · rcases hdf (st.videos.getD j dfltVideo) with hd1 | hd1
    · rw [hc, hd1] at hdisp
      exact h j (by omega) hdisp
    · rw [hc, hd1] at hdisp
      exact absurd rfl hdisp

lemma Inv_loadSegmentRest (st : PState) (index : Nat) (off : Int) (h : Inv st) :
    Inv (loadSegmentRest index off st).1 := by
  by_cases hv : index < st.videos.length
  · obtain ⟨_, hci, _, _, _, _, _, _, hvl, _, _, _, _, _, hshr, hcur⟩ :=
      loadSegmentRest_desc st index off hv
    intro j hj hdisp
    rcases eq_or_ne j index with rfl | hne
    · exact hci
    · exfalso
      rw [hvl] at hj
      have h1 := hshr j hne hdisp
      have h2 := h j hj h1
      exact hdisp (hcur j hne hj h2)
  · unfold loadSegmentRest PState.hideVideo
    simp only []
    set st1 := if 0 ≤ (index : Int) - 1 then
        optModify st (some ((index : Int) - 1)) (fun v => { v with display := "none" })
      else st with hst1
    set st2 := optModify st1 (currentIndexInt st1)
        (fun v => { v with display := "none" }) with hst2
    have h1 : Inv st1 := by
      rw [hst1]
      split
      · exact Inv_optModify _ _ _ (fun v => Or.inr rfl) h
      · exact h
    have h2 : Inv st2 :=
      Inv_optModify _ _ _ (fun v => Or.inr rfl) h1
    have hl : st2.videos.length ≤ index := by
      have e2 := (optModify_misc st1 (currentIndexInt st1)
        (fun v => { v with display := "none" })).2.2.2.2.2.2.2
      have e1 : st1.videos.length = st.videos.length := by
        rw [hst1]
        split
        · exact (optModify_misc ..).2.2.2.2.2.2.2
        · rfl
      rw [hst2, e2, e1]
      omega
    rw [List.get?_eq_none.mpr hl]
    exact h2

lemma Inv_loadSegment (idx : Option Int) (off : Int) (k : Kont) (st : PState)
    (h : Inv st) : Inv (loadSegment idx off k st).1 := by
  unfold loadSegment
  cases idx with
  | none => exact h
  | some i =>
    simp only []
    by_cases hr : i < 0 ∨ (st.attachments.length : Int) ≤ i
    · rw [if_pos hr]
      exact h
    · rw [if_neg hr]
      cases hg : st.getSegment (some i) with
      | none => exact h
      | some seg =>
        simp only []
        split
        · exact Inv_set_timer _ _ h
        · exact Inv_loadSegmentRest _ _ _ h

lemma Inv_playVideoAt (st : PState) (idx : Option Int) (h : Inv st) :
    Inv (st.playVideoAt idx) :=
  Inv_optModify _ _ _ (fun _ => Or.inl rfl) h

lemma Inv_lsatTail (vOff : Int) (next : Option Int) (wp : Bool) (st : PState)
    (h : Inv st) : Inv (lsatTail vOff next wp st).1 := by
  unfold lsatTail
  cases hg : st.getSegment next with
  | none => exact h
  | some seg =>
    simp only []
    rcases hls : loadSegment next (st.startTimestamp + vOff - seg.timestamp)
        (if wp = true then Kont.thenPlay else Kont.done) st with ⟨st', out⟩
    have hst' : Inv st' := by
      have := Inv_loadSegment next (st.startTimestamp + vOff - seg.timestamp)
        (if wp = true then Kont.thenPlay else Kont.done) st h
      rw [hls] at this
      exact this
    cases out with
    | ret v =>
      simp only []
      split
      · exact Inv_playVideoAt _ _ hst'
      · exact hst'
    | waiting t => exact hst'

lemma Inv_runKont (k : Kont) (v : Int) (st : PState) (h : Inv st) :
    Inv (runKont k v st) := by
  cases k with
  | done => exact h
  | thenPlay => exact Inv_playVideoAt _ _ h
  | lsatRest vOff p wp => exact Inv_lsatTail _ _ _ _ h

lemma Inv_runResume (nt : PNotification) (st : PState) (h : Inv st) :
    Inv (runResume nt st) :=
  Inv_runKont _ _ _ (Inv_loadSegmentRest _ _ _ h)

lemma Inv_loadSegmentAtTime (vOff : Int) (wp : Bool) (st : PState) (h : Inv st) :
    Inv (loadSegmentAtTime vOff wp st).1 := by
  unfold loadSegmentAtTime
  cases hg : getSegmentIndexForTime vOff st with
  | none => exact h
  | some res =>
    simp only []
    rcases res with ⟨prev, seg⟩
    cases seg with
    | some s => exact Inv_lsatTail _ _ _ _ h
    | none =>
      cases prev with
      | none => exact Inv_lsatTail _ _ _ _ h
      | some p =>
        simp only []
        cases hgp : st.getSegment (some p) with
        | none => exact h
        | some prevSeg =>
          simp only []
          rcases hls : loadSegment (some p) prevSeg.duration
              (Kont.lsatRest vOff p.toNat wp) st with ⟨st', out⟩
          have hst' : Inv st' := by
            have := Inv_loadSegment (some p) prevSeg.duration
              (Kont.lsatRest vOff p.toNat wp) st h
            rw [hls] at this
            exact this
          cases out with
          | waiting t => exact hst'
          | ret v => exact Inv_lsatTail _ _ _ _ hst'

lemma Inv_play (off : Int) (st : PState) (h : Inv st) : Inv (play off st) := by
  unfold play playSegmentAtTime
  exact Inv_loadSegmentAtTime _ _ _ (Inv_set_timer _ _ h)

lemma Inv_pause (off : Int) (st : PState) (h : Inv st) : Inv (pause off st) := by
  unfold pause
  exact Inv_loadSegmentAtTime _ _ _
    (Inv_set_timer _ _ (Inv_optModify _ _ _ (fun v => Or.inl rfl) h))

lemma Inv_setConfig (speed : Option Rat) (st : PState) (h : Inv st) :
    Inv (setConfig speed st) := by
  unfold setConfig
  cases speed with
  | none => exact h
  | some s =>
    simp only []
    refine Inv_optModify _ _ _ (fun v => Or.inl rfl) ?_
    intro j hj hd
    exact h j hj hd

lemma Inv_handleSegmentEnd (index : Nat) (st : PState) (h : Inv st) :
    Inv (handleSegmentEnd index st) := by
  unfold handleSegmentEnd
  simp only []
  split
  · intro j hj hd
    exact h j hj hd
  · unfold playSegmentAtIndex
    rcases hls : loadSegment (some ((index + 1 : Nat) : Int)) 0 Kont.thenPlay st
        with ⟨st', out⟩
    have hst' : Inv st' := by
      have := Inv_loadSegment (some ((index + 1 : Nat) : Int)) 0 Kont.thenPlay st h
      rw [hls] at this
      exact this
    cases out with
    | ret v => exact Inv_playVideoAt _ _ hst'
    | waiting t => exact hst'

/-- **C8**: all handles are created hidden at construction, the freshly
constructed player satisfies the shown-handle invariant, and every
operation step preserves it: at every instant between completed operation
steps at most one media handle is shown (display not `"none"`), and when
one is shown it is the handle at the active segment index, so the shown
set is always empty or the singleton of the active position. -/
theorem c8_at_most_one_handle_shown :
    (∀ (a : MobileAttachment) (sp : Rat), (createVideo a sp).display = "none") ∧
    (∀ (attachments : List MobileAttachment) (start : Int),
      Inv (initState attachments start)) ∧
    (∀ st st' : PState, Inv st → Step st st' → Inv st') := by
  refine ⟨fun a sp => rfl, ?_, ?_⟩
  · intro atts start
    unfold initState
    simp only []
    apply Inv_loadSegment
    intro j hj hdisp
    exfalso
    apply hdisp
    show ((atts.map (fun a => createVideo a 1)).getD j dfltVideo).display = "none"
    cases h' : (atts.map (fun a => createVideo a 1)).get? j with
    | none =>
      rw [List.getD_eq_getElem?_getD, ← List.get?_eq_getElem?, h']
      rfl
    | some v =>
      rw [getD_eq_of_get? h']
      rw [List.get?_eq_getElem?, List.getElem?_map] at h'
      rcases Option.map_eq_some'.mp h' with ⟨a, ha, rfl⟩
      rfl
  · intro st st' h hstep
    cases hstep with
    | stepPlay off st => exact Inv_play off st h
    | stepPause off st => exact Inv_pause off st h
    | stepSetConfig speed st => exact Inv_setConfig speed st h
    | stepSegmentEnd index st => exact Inv_handleSegmentEnd index st h
    | stepAdvance dt st hrun => exact Inv_set_timer _ _ h
    | stepFire st nt hrun hmem hdue => exact Inv_runResume _ _ (Inv_set_timer _ _ h)

theorem c8_at_most_one_handle_shown_witness :
    Inv exStGap ∧ Inv (setConfig (some 2) exStGap) :=
  ⟨by decide,
    c8_at_most_one_handle_shown.2.2 exStGap (setConfig (some 2) exStGap) (by decide)
      (Step.stepSetConfig (some 2) exStGap)⟩

end MobileReplay
